import Mathlib

/-!
Verification development for the two pipeline scripts
`fast_validate_ids.py` (ID validator) and `fast_get_coords.py`
(coordinate fetcher).

Python strings are modelled as `List Char` (`Str`), Python integers as
`Nat`/`Int`, Python dicts as insertion-ordered association lists with the
update-in-place/append-at-end discipline of CPython dicts, and the remote
CAVE client as a record of response functions returning `Except` values
(`Except.error` models a raised exception).  Thread-pool nondeterminism is
modelled by quantifying over the completion order of the per-ID tasks.
-/

/-- Python `str` values are modelled as lists of characters. -/
abbrev Str := List Char

/-- A raw nanometer coordinate or a voxel coordinate: a triple of integers. -/
abbrev Coord3 := Int × Int × Int

/-- ASCII digit test, modelling membership in `0123456789` as checked by
`str.isdigit` on the identifier strings this tool consumes. -/
def isDig (c : Char) : Bool := 48 ≤ c.toNat && c.toNat ≤ 57

/-- Python `s.isdigit()`: true iff `s` is nonempty and all digits. -/
def pyIsDigit (s : Str) : Bool := !s.isEmpty && s.all isDig

/-- Whitespace characters removed by Python `str.strip()`. -/
def pyIsSpace (c : Char) : Bool :=
  c = ' ' || c = '\t' || c = '\n' || c = '\r' || c = '\x0b' || c = '\x0c'

/-- Python `s.strip()`: drop whitespace from both ends. -/
def pyStrip (s : Str) : Str :=
  ((s.dropWhile pyIsSpace).reverse.dropWhile pyIsSpace).reverse

/-- The decimal digit character for a value `d < 10`. -/
def digitChar (d : Nat) : Char := Char.ofNat (48 + d)

/-- Little-endian decimal digits of `n`, with explicit structural fuel so
that the definition reduces inside `decide`.  For `fuel ≥ n` this is the
digit expansion of `n` (least significant first). -/
def digitsRevFuel : Nat → Nat → List Nat
  | 0, n => [n]
  | fuel + 1, n => if n < 10 then [n] else n % 10 :: digitsRevFuel fuel (n / 10)

/-- Python `str(n)` for a nonnegative integer `n`. -/
def pyStrOfNat (n : Nat) : Str := ((digitsRevFuel n n).reverse).map digitChar

/-- Python `int(s)` for an all-digits string `s`. -/
def pyIntOfStr (s : Str) : Nat := s.foldl (fun a c => a * 10 + (c.toNat - 48)) 0

/-- Value of a little-endian digit list. -/
def valLE : List Nat → Nat
  | [] => 0
  | d :: ds => d + 10 * valLE ds

theorem valLE_digitsRevFuel (fuel : Nat) : ∀ n : Nat, n ≤ fuel →
    valLE (digitsRevFuel fuel n) = n := by
  induction fuel with
  | zero =>
    intro n hn
    interval_cases n
    simp [digitsRevFuel, valLE]
  | succ f ih =>
    intro n hn
    by_cases h : n < 10
    · simp [digitsRevFuel, h, valLE]
    · have h10 : 10 ≤ n := Nat.le_of_not_lt h
      have hdiv : n / 10 ≤ f := by
        have h1 : n / 10 < n := Nat.div_lt_self (by omega) (by omega)
        omega
      simp only [digitsRevFuel, if_neg h, valLE, ih (n / 10) hdiv]
      omega

theorem digitsRevFuel_lt_ten (fuel : Nat) : ∀ n : Nat, n ≤ fuel →
    ∀ d ∈ digitsRevFuel fuel n, d < 10 := by
  induction fuel with
  | zero =>
    intro n hn d hd
    interval_cases n
    simp [digitsRevFuel] at hd
    omega
  | succ f ih =>
    intro n hn d hd
    by_cases h : n < 10
    · simp [digitsRevFuel, h] at hd
      omega
    · have h10 : 10 ≤ n := Nat.le_of_not_lt h
      have hdiv : n / 10 ≤ f := by
        have h1 : n / 10 < n := Nat.div_lt_self (by omega) (by omega)
        omega
      simp only [digitsRevFuel, if_neg h, List.mem_cons] at hd
      rcases hd with hd | hd
      · subst hd; exact Nat.mod_lt _ (by omega)
      · exact ih (n / 10) hdiv d hd

theorem toNat_digitChar {d : Nat} (hd : d < 10) : (digitChar d).toNat = 48 + d := by
  interval_cases d <;> rfl

theorem foldl_digits_reverse (ds : List Nat) (hds : ∀ d ∈ ds, d < 10) :
    ∀ acc : Nat,
      (ds.reverse.map digitChar).foldl (fun a c => a * 10 + (c.toNat - 48)) acc =
        acc * 10 ^ ds.length + valLE ds := by
  induction ds with
  | nil => intro acc; simp [valLE]
  | cons d ds ih =>
    intro acc
    have hd : d < 10 := hds d (List.mem_cons_self d ds)
    have hds' : ∀ x ∈ ds, x < 10 := fun x hx => hds x (List.mem_cons_of_mem d hx)
    simp only [List.reverse_cons, List.map_append, List.foldl_append, ih hds',
      List.map_cons, List.map_nil, List.foldl_cons, List.foldl_nil, valLE,
      List.length_cons, toNat_digitChar hd]
    ring_nf
    omega

/-- `int(str(n)) = n`: Python's decimal printing and parsing round-trip. -/
theorem pyIntOfStr_pyStrOfNat (n : Nat) : pyIntOfStr (pyStrOfNat n) = n := by
  unfold pyIntOfStr pyStrOfNat
  rw [foldl_digits_reverse _ (digitsRevFuel_lt_ten n n (Nat.le_refl n))]
  simp [valLE_digitsRevFuel n n (Nat.le_refl n)]

theorem pyStrOfNat_injective {a b : Nat} (h : pyStrOfNat a = pyStrOfNat b) : a = b := by
  have ha := pyIntOfStr_pyStrOfNat a
  have hb := pyIntOfStr_pyStrOfNat b
  rw [h] at ha
  omega

/-- The Unicode arrow character `U+2192` used in validator output lines. -/
def arrowChar : Char := '→'

/-- Substring occurrence test: models Python `sep in line`. -/
def hasSub (sep : Str) : Str → Bool
  | [] => sep.isEmpty
  | c :: rest => sep.isPrefixOf (c :: rest) || hasSub sep rest

/-- Python `line.split(sep)` for a nonempty separator, with explicit
structural fuel (`fuel ≥ length of the list`) so that the definition
reduces inside `decide`.  Scans left to right, consuming each occurrence
of `sep` greedily, exactly as CPython `str.split` does. -/
def splitFuel (sep : Str) : Nat → Str → List Str
  | _, [] => [[]]
  | 0, l => [l]
  | fuel + 1, c :: rest =>
    if !sep.isEmpty && sep.isPrefixOf (c :: rest) then
      [] :: splitFuel sep fuel ((c :: rest).drop sep.length)
    else
      match splitFuel sep fuel rest with
      | [] => [[c]]
      | p :: ps => (c :: p) :: ps

/-- Python `line.split(sep)`. -/
def pySplit (sep l : Str) : List Str := splitFuel sep l.length l

/-- `line.split(sep)[-1]`: the last field of the split. -/
def lastField (sep l : Str) : Str := (pySplit sep l).getLastD []

/-- `parse_id_file` of `fast_validate_ids.py`, per line.  Note: it skips
blank lines only (no `#` comment check) and recognizes the Unicode arrow
but not the ASCII `->` separator. -/
def parseLineV (raw : Str) : List Str :=
  let line := pyStrip raw
  if line.isEmpty then []
  else if hasSub [arrowChar] line then
    let idPart := pyStrip (lastField [arrowChar] line)
    if !idPart.isEmpty && pyIsDigit idPart then [idPart] else []
  else if pyIsDigit line then [line]
  else []

/-- `parse_id_file` of `fast_validate_ids.py` over a list of raw lines. -/
def parseIdFileV (ls : List Str) : List Str := ls.flatMap parseLineV

/-- `parse_id_file` of `fast_get_coords.py`, per line: skips blank lines
and lines starting with `#`, then tries the Unicode arrow, the ASCII
`->` separator, and the all-digits grammar, in that order. -/
def parseLineC (raw : Str) : List Str :=
  let line := pyStrip raw
  if line.isEmpty then []
  else if ['#'].isPrefixOf line then []
  else if hasSub [arrowChar] line then
    let idPart := pyStrip (lastField [arrowChar] line)
    if !idPart.isEmpty && pyIsDigit idPart then [idPart] else []
  else if hasSub ['-', '>'] line then
    let idPart := pyStrip (lastField ['-', '>'] line)
    if !idPart.isEmpty && pyIsDigit idPart then [idPart] else []
  else if pyIsDigit line then [line]
  else []

/-- `parse_id_file` of `fast_get_coords.py` over a list of raw lines. -/
def parseIdFileC (ls : List Str) : List Str := ls.flatMap parseLineC

/-- Insertion-ordered association list modelling a CPython dict:
assignment to an existing key updates the value in place, assignment to a
fresh key appends at the end (so `mvals` matches `dict.values()` order). -/
abbrev PyDict (α β : Type) := List (α × β)

/-- Whether `k` is a key of the dict (Python `k in d`). -/
def containsKey [DecidableEq α] (m : PyDict α β) (k : α) : Bool :=
  m.any fun p => decide (p.1 = k)

/-- Python `d[k] = v`. -/
def dinsert [DecidableEq α] (k : α) (v : β) (m : PyDict α β) : PyDict α β :=
  if containsKey m k then m.map fun p => if p.1 = k then (k, v) else p
  else m ++ [(k, v)]

/-- Python `d.get(k)` / `d[k]`. -/
def mlookup [DecidableEq α] : PyDict α β → α → Option β
  | [], _ => none
  | p :: rest, k => if p.1 = k then some p.2 else mlookup rest k

/-- Python `list(d.keys())`. -/
def mkeys (m : PyDict α β) : List α := m.map Prod.fst

/-- Python `list(d.values())`. -/
def mvals (m : PyDict α β) : List β := m.map Prod.snd

/-- The remote CAVE service, as consumed by the two scripts.  Each field
models one client call; `Except.error msg` models the call raising an
exception whose `str()` is `msg`. -/
structure Client where
  /-- `client.chunkedgraph.get_leaves(root_id)` (validator Stage A). -/
  get_leaves : Nat → Except String (List Nat)
  /-- `client.chunkedgraph.get_leaves(root_id, stop_layer=2)` (coords Stage A). -/
  get_leaves2 : Nat → Except String (List Nat)
  /-- `client.chunkedgraph.get_roots(chunk)` (validator Stage B). -/
  get_roots : List Nat → Except String (List Nat)
  /-- `client.l2cache.get_l2data(chunk, attributes=["rep_coord_nm"])`
  (coords Stage B): a dict keyed by `str(l2_id)`; the value is `some rep`
  when the `rep_coord_nm` attribute is present and `none` when absent. -/
  get_l2data : List Nat → Except String (PyDict Str (Option Coord3))

/-- The `try`/`except` body shared by both Stage-A workers, abstracted
over the response of the single remote call it makes. -/
def workerResult (root_id : Str) (resp : Except String (List Nat)) (emptyMsg : String) :
    Str × Option Nat × Option String :=
  match resp with
  | .ok leaves =>
    match leaves with
    | [] => (root_id, none, some emptyMsg)
    | l :: _ => (root_id, some l, none)
  | .error e => (root_id, none, some e)

/-- `get_one_supervoxel` of `fast_validate_ids.py`. -/
def get_one_supervoxel (client : Client) (root_id : Str) : Str × Option Nat × Option String :=
  workerResult root_id (client.get_leaves (pyIntOfStr root_id)) "No supervoxels found"

/-- `get_one_l2` of `fast_get_coords.py`. -/
def get_one_l2 (client : Client) (root_id : Str) : Str × Option Nat × Option String :=
  workerResult root_id (client.get_leaves2 (pyIntOfStr root_id)) "No L2 chunks found"

/-- One iteration of the Stage-A collection loop body
(`if sv is not None: id_to_sv[root_id] = sv else: errors[root_id] = err`). -/
def stepA (maps : PyDict Str Nat × PyDict Str String)
    (res : Str × Option Nat × Option String) : PyDict Str Nat × PyDict Str String :=
  match res with
  | (root_id, some sv, _) => (dinsert root_id sv maps.1, maps.2)
  | (root_id, none, err) => (maps.1, dinsert root_id (err.getD "") maps.2)

/-- The Stage-A collection loop (`for future in as_completed(futures)`):
fold the per-task result triples, in completion order, into the success
dict (`id_to_sv` / `id_to_l2`) and the error dict. -/
def collectA (results : List (Str × Option Nat × Option String)) :
    PyDict Str Nat × PyDict Str String :=
  results.foldl stepA ([], [])

/-- Stage A of the validator: run `get_one_supervoxel` on every task and
collect in completion order.  `order` is the list of submitted IDs in the
(nondeterministic) order their futures complete. -/
def stageAV (client : Client) (order : List Str) : PyDict Str Nat × PyDict Str String :=
  collectA (order.map (get_one_supervoxel client))

/-- Stage A of the coordinate fetcher. -/
def stageAC (client : Client) (order : List Str) : PyDict Str Nat × PyDict Str String :=
  collectA (order.map (get_one_l2 client))

/-- `range(0, len(l), n)` slicing: split `l` into contiguous chunks of at
most `n` elements, with explicit structural fuel (`fuel ≥ length`). -/
def chunksFuel (n : Nat) : Nat → List α → List (List α)
  | _, [] => []
  | 0, l => [l]
  | fuel + 1, l => l.take n :: chunksFuel n fuel (l.drop n)

/-- The chunking loop `for i in range(0, len(l), n): chunk = l[i:i+n]`. -/
def pyChunks (n : Nat) (l : List α) : List (List α) := chunksFuel n l.length l

/-- Stage B of the validator (`STEP 2`): batched `get_roots` over chunks
of 5000, zipping each chunk with the returned roots.  No interior
`try`/`except`: a fault on any chunk propagates (`Except.error`). -/
def stageBRoots (client : Client) (sv_list : List Nat) : Except String (PyDict Nat Nat) :=
  (pyChunks 5000 sv_list).foldlM
    (fun m chunk =>
      match client.get_roots chunk with
      | .ok new_roots => .ok ((chunk.zip new_roots).foldl (fun m p => dinsert p.1 p.2 m) m)
      | .error e => .error e)
    []

/-- Stage B of the coordinate fetcher (`STEP 2`): batched `get_l2data`
over chunks of 100, with a `try`/`except` per chunk: a fault skips that
chunk's update and the loop continues. -/
def stageBL2 (client : Client) (l2_list : List Nat) : PyDict Str (Option Coord3) :=
  (pyChunks 100 l2_list).foldl
    (fun m chunk =>
      match client.get_l2data chunk with
      | .ok chunk_data => chunk_data.foldl (fun m p => dinsert p.1 p.2 m) m
      | .error _ => m)
    []

/-- One line of the validator report body (`STEP 3` of
`fast_validate_ids.py`); the constructors model the four distinct
formatted strings appended to `lines`. -/
inductive VLine : Type
  /-- `# ERROR: {old_id} - {reason}` -/
  | errorRow (old_id : Str) (reason : String)
  /-- `{old_id}    ->    {new_id}` -/
  | changedRow (old_id new_id : Str)
  /-- `{old_id}    [OK - Current]` -/
  | okRow (old_id : Str)
deriving DecidableEq

/-- The InputID a validator report line is about. -/
def VLine.rowId : VLine → Str
  | .errorRow old_id _ => old_id
  | .changedRow old_id _ => old_id
  | .okRow old_id => old_id

/-- State of the validator `STEP 3` loop: report lines, the three
classification counters, and the clean updated-IDs list. -/
structure VResult : Type where
  lines : List VLine
  changed : Nat
  unchanged : Nat
  errCount : Nat
  updated : List Str
deriving DecidableEq

/-- One iteration of the validator `STEP 3` loop body. -/
def vStep (errors : PyDict Str String) (id_to_sv : PyDict Str Nat)
    (sv_to_root : PyDict Nat Nat) (acc : VResult) (old_id : Str) : VResult :=
  match mlookup errors old_id with
  | some reason =>
    { acc with lines := acc.lines ++ [.errorRow old_id reason],
               errCount := acc.errCount + 1, updated := acc.updated ++ [old_id] }
  | none =>
    match mlookup id_to_sv old_id with
    | some sv =>
      match mlookup sv_to_root sv with
      | some root =>
        let new_id := pyStrOfNat root
        if new_id ≠ old_id then
          { acc with lines := acc.lines ++ [.changedRow old_id new_id],
                     changed := acc.changed + 1, updated := acc.updated ++ [new_id] }
        else
          { acc with lines := acc.lines ++ [.okRow old_id],
                     unchanged := acc.unchanged + 1, updated := acc.updated ++ [old_id] }
      | none =>
        { acc with lines := acc.lines ++ [.errorRow old_id "lookup failed"],
                   errCount := acc.errCount + 1, updated := acc.updated ++ [old_id] }
    | none =>
      { acc with lines := acc.lines ++ [.errorRow old_id "lookup failed"],
                 errCount := acc.errCount + 1, updated := acc.updated ++ [old_id] }

/-- Validator `STEP 3`: walk `all_ids` in original order and build the
report lines, counters and clean updated-IDs list. -/
def buildValidator (all_ids : List Str) (errors : PyDict Str String)
    (id_to_sv : PyDict Str Nat) (sv_to_root : PyDict Nat Nat) : VResult :=
  all_ids.foldl (vStep errors id_to_sv sv_to_root) ⟨[], 0, 0, 0, []⟩

/-- The element-wise nanometer-to-voxel conversion
`int(rep_coord[i] / viewer_res[i])`: exact quotient truncated toward
zero in each component. -/
def toVoxel (rep : Coord3) (res : Coord3) : Coord3 :=
  (Int.tdiv rep.1 res.1, Int.tdiv rep.2.1 res.2.1, Int.tdiv rep.2.2 res.2.2)

/-- One row of the coordinate report (`STEP 3` of `fast_get_coords.py`). -/
inductive CRow : Type
  /-- The header line `root_id\tx\ty\tz`. -/
  | headerRow
  /-- `{root_id}\tERROR\tERROR\tERROR` -/
  | errorRow (root_id : Str)
  /-- `{root_id}\tN/A\tN/A\tN/A` -/
  | naRow (root_id : Str)
  /-- `{root_id}\t{x}\t{y}\t{z}` -/
  | coordsRow (root_id : Str) (xyz : Coord3)
deriving DecidableEq

/-- The InputID a coordinate report row is about (dummy for the header). -/
def CRow.rowId : CRow → Str
  | .headerRow => []
  | .errorRow root_id => root_id
  | .naRow root_id => root_id
  | .coordsRow root_id _ => root_id

/-- State of the coordinate `STEP 3` loop: rows and the two counters. -/
structure CResult : Type where
  rows : List CRow
  success : Nat
  fail : Nat
deriving DecidableEq

/-- One iteration of the coordinate `STEP 3` loop body. -/
def cStep (errors : PyDict Str String) (id_to_l2 : PyDict Str Nat)
    (l2_data : PyDict Str (Option Coord3)) (viewer_res : Coord3)
    (acc : CResult) (root_id : Str) : CResult :=
  match mlookup errors root_id with
  | some _ =>
    { acc with rows := acc.rows ++ [.errorRow root_id], fail := acc.fail + 1 }
  | none =>
    match mlookup id_to_l2 root_id with
    | some l2_id =>
      match mlookup l2_data (pyStrOfNat l2_id) with
      | some (some rep_coord) =>
        { acc with rows := acc.rows ++ [.coordsRow root_id (toVoxel rep_coord viewer_res)],
                   success := acc.success + 1 }
      | some none =>
        { acc with rows := acc.rows ++ [.naRow root_id], fail := acc.fail + 1 }
      | none =>
        { acc with rows := acc.rows ++ [.naRow root_id], fail := acc.fail + 1 }
    | none =>
      { acc with rows := acc.rows ++ [.naRow root_id], fail := acc.fail + 1 }

/-- Coordinate `STEP 3`: the rows list starts with the header, then one
row per input ID in original order. -/
def buildCoords (viewer_res : Coord3) (all_ids : List Str) (errors : PyDict Str String)
    (id_to_l2 : PyDict Str Nat) (l2_data : PyDict Str (Option Coord3)) : CResult :=
  all_ids.foldl (cStep errors id_to_l2 l2_data viewer_res) ⟨[.headerRow], 0, 0⟩

/-- `main` of `fast_validate_ids.py` after parsing, for a given task
completion order: Stage A, then Stage B (whose fault, if any, propagates
and aborts the run with no report), then Stage C. -/
def validatorMain (client : Client) (all_ids order : List Str) : Except String VResult :=
  let maps := stageAV client order
  match stageBRoots client (mvals maps.1) with
  | .ok sv_to_root => .ok (buildValidator all_ids maps.2 maps.1 sv_to_root)
  | .error e => .error e

/-- `main` of `fast_get_coords.py` after parsing, for a given task
completion order.  Total: Stage-B faults are caught per chunk. -/
def coordsMain (client : Client) (viewer_res : Coord3) (all_ids order : List Str) : CResult :=
  let maps := stageAC client order
  buildCoords viewer_res all_ids maps.2 maps.1 (stageBL2 client (mvals maps.1))

theorem mlookup_append [DecidableEq α] (m1 m2 : PyDict α β) (k : α) :
    mlookup (m1 ++ m2) k =
      match mlookup m1 k with
      | some v => some v
      | none => mlookup m2 k := by
  induction m1 with
  | nil => simp [mlookup]
  | cons p m1 ih =>
    by_cases h : p.1 = k <;> simp [mlookup, h, ih]

theorem containsKey_iff_mem_mkeys [DecidableEq α] (m : PyDict α β) (k : α) :
    containsKey m k = true ↔ k ∈ mkeys m := by
  simp [containsKey, mkeys, List.any_eq_true]

theorem mem_mkeys_iff_isSome [DecidableEq α] (m : PyDict α β) (k : α) :
    k ∈ mkeys m ↔ (mlookup m k).isSome := by
  induction m with
  | nil => simp [mkeys, mlookup]
  | cons p m ih =>
    have hm : mkeys (p :: m) = p.1 :: mkeys m := rfl
    rw [hm, List.mem_cons, ih]
    by_cases h : p.1 = k
    · simp [mlookup, h]
    · have h' : ¬ k = p.1 := fun hh => h hh.symm
      simp [mlookup, h, h']

theorem mlookup_eq_none_of_not_contains [DecidableEq α] {m : PyDict α β} {k : α}
    (h : containsKey m k = false) : mlookup m k = none := by
  rcases ho : mlookup m k with _ | v
  · rfl
  · have : k ∈ mkeys m := by rw [mem_mkeys_iff_isSome, ho]; rfl
    rw [← containsKey_iff_mem_mkeys] at this
    rw [h] at this
    cases this

theorem mlookup_update_map [DecidableEq α] (m : PyDict α β) (k k' : α) (v : β) :
    mlookup (m.map fun p => if p.1 = k then (k, v) else p) k' =
      if k' = k then (if containsKey m k then some v else none) else mlookup m k' := by
  induction m with
  | nil => simp [mlookup, containsKey]
  | cons p m ih =>
    simp only [List.map_cons, mlookup, containsKey, List.any_cons] at ih ⊢
    by_cases hp : p.1 = k
    · by_cases hk : k' = k
      · subst hk; simp [hp, mlookup, ih]
      · have h2 : ¬ (k : α) = k' := fun hh => hk hh.symm
        have h3 : ¬ p.1 = k' := by rw [hp]; exact h2
        simp [hp, h2, h3, hk, mlookup, ih]
    · by_cases hk : k' = k
      · subst hk
        rw [if_neg hp]
        simp only [mlookup, if_neg hp, ih, if_pos rfl, decide_eq_false hp, Bool.false_or]
      · by_cases hpk : p.1 = k'
        · simp [hp, hpk, hk, mlookup]
        · simp [hp, hpk, hk, mlookup, ih]

theorem mlookup_dinsert [DecidableEq α] (k : α) (v : β) (m : PyDict α β) (k' : α) :
    mlookup (dinsert k v m) k' = if k' = k then some v else mlookup m k' := by
  unfold dinsert
  by_cases hc : containsKey m k
  · rw [if_pos hc, mlookup_update_map, hc]
    simp
  · rw [if_neg hc, mlookup_append]
    have hnone := mlookup_eq_none_of_not_contains (Bool.eq_false_iff.mpr hc)
    by_cases hk : k' = k
    · subst hk; simp [hnone, mlookup]
    · rcases ho : mlookup m k' with _ | w <;> simp [ho, mlookup, hk, Ne.symm hk]

theorem mkeys_map_update [DecidableEq α] (m : PyDict α β) (k : α) (v : β) :
    mkeys (m.map fun p => if p.1 = k then (k, v) else p) = mkeys m := by
  unfold mkeys
  rw [List.map_map]
  refine List.map_congr_left ?_
  intro p _
  by_cases hp : p.1 = k
  · simp [Function.comp, hp]
  · simp [Function.comp, hp]

theorem mem_mkeys_dinsert [DecidableEq α] (k : α) (v : β) (m : PyDict α β) (x : α) :
    x ∈ mkeys (dinsert k v m) ↔ x = k ∨ x ∈ mkeys m := by
  unfold dinsert
  by_cases hc : containsKey m k
  · rw [if_pos hc, mkeys_map_update]
    constructor
    · exact Or.inr
    · rintro (rfl | h)
      · exact (containsKey_iff_mem_mkeys m x).mp hc
      · exact h
  · rw [if_neg hc]
    simp [mkeys]
    tauto

theorem nodup_mkeys_dinsert [DecidableEq α] (k : α) (v : β) (m : PyDict α β)
    (h : (mkeys m).Nodup) : (mkeys (dinsert k v m)).Nodup := by
  unfold dinsert
  by_cases hc : containsKey m k
  · rw [if_pos hc, mkeys_map_update]; exact h
  · rw [if_neg hc]
    have hk : k ∉ mkeys m := fun hm => hc ((containsKey_iff_mem_mkeys m k).mpr hm)
    simp only [mkeys, List.map_append]
    refine List.nodup_append.mpr ⟨h, by simp, ?_⟩
    intro a ha
    simp only [List.map_cons, List.map_nil, List.mem_singleton]
    rintro rfl
    exact hk ha

theorem mem_mvals_iff [DecidableEq α] (m : PyDict α β) (hn : (mkeys m).Nodup) (v : β) :
    v ∈ mvals m ↔ ∃ k, mlookup m k = some v := by
  induction m with
  | nil => simp [mvals, mlookup]
  | cons p m ih =>
    have hn' : (mkeys m).Nodup := (List.nodup_cons.mp hn).2
    have hp1 : p.1 ∉ mkeys m := (List.nodup_cons.mp hn).1
    have hm : mvals (p :: m) = p.2 :: mvals m := rfl
    rw [hm, List.mem_cons, ih hn']
    constructor
    · rintro (rfl | ⟨k, hk⟩)
      · exact ⟨p.1, by simp [mlookup]⟩
      · have hne : ¬ p.1 = k := by
          rintro rfl
          rw [mem_mkeys_iff_isSome, hk] at hp1
          exact hp1 rfl
        exact ⟨k, by simp [mlookup, hne, hk]⟩
    · rintro ⟨k, hk⟩
      by_cases h : p.1 = k
      · left
        simp only [mlookup, if_pos h] at hk
        exact (Option.some_inj.mp hk).symm
      · right
        simp only [mlookup, if_neg h] at hk
        exact ⟨k, hk⟩

theorem stepA_some (maps : PyDict Str Nat × PyDict Str String) (rid : Str) (s : Nat)
    (err : Option String) : stepA maps (rid, some s, err) = (dinsert rid s maps.1, maps.2) := rfl

theorem stepA_none (maps : PyDict Str Nat × PyDict Str String) (rid : Str)
    (err : Option String) :
    stepA maps (rid, none, err) = (maps.1, dinsert rid (err.getD "") maps.2) := rfl

theorem collectA_keys_general (rs : List (Str × Option Nat × Option String)) :
    ∀ acc : PyDict Str Nat × PyDict Str String, ∀ id : Str,
      (id ∈ mkeys (rs.foldl stepA acc).1 ↔
        (∃ r ∈ rs, r.1 = id ∧ (r.2.1).isSome) ∨ id ∈ mkeys acc.1) ∧
      (id ∈ mkeys (rs.foldl stepA acc).2 ↔
        (∃ r ∈ rs, r.1 = id ∧ r.2.1 = none) ∨ id ∈ mkeys acc.2) := by
  induction rs with
  | nil => intro acc id; simp
  | cons r rs ih =>
    intro acc id
    rcases r with ⟨rid, sv, err⟩
    rw [List.foldl_cons]
    cases sv with
    | some s =>
      rcases ih (stepA acc (rid, some s, err)) id with ⟨ih1, ih2⟩
      rw [stepA_some] at ih1 ih2
      rw [stepA_some]
      constructor
      · rw [ih1]
        constructor
        · rintro (⟨r, hr, hid, hs⟩ | hmem)
          · exact Or.inl ⟨r, List.mem_cons_of_mem _ hr, hid, hs⟩
          · rcases (mem_mkeys_dinsert rid s acc.1 id).mp hmem with h | h
            · exact Or.inl ⟨(rid, some s, err), List.mem_cons_self _ _, h.symm, rfl⟩
            · exact Or.inr h
        · rintro (⟨r, hr, hid, hs⟩ | hmem)
          · rcases List.mem_cons.mp hr with hr' | hr'
            · subst hr'
              exact Or.inr ((mem_mkeys_dinsert rid s acc.1 id).mpr (Or.inl hid.symm))
            · exact Or.inl ⟨r, hr', hid, hs⟩
          · exact Or.inr ((mem_mkeys_dinsert rid s acc.1 id).mpr (Or.inr hmem))
      · rw [ih2]
        constructor
        · rintro (⟨r, hr, hid, hs⟩ | hmem)
          · exact Or.inl ⟨r, List.mem_cons_of_mem _ hr, hid, hs⟩
          · exact Or.inr hmem
        · rintro (⟨r, hr, hid, hs⟩ | hmem)
          · rcases List.mem_cons.mp hr with hr' | hr'
            · rw [hr'] at hs
              cases hs
            · exact Or.inl ⟨r, hr', hid, hs⟩
          · exact Or.inr hmem
    | none =>
      rcases ih (stepA acc (rid, none, err)) id with ⟨ih1, ih2⟩
      rw [stepA_none] at ih1 ih2
      rw [stepA_none]
      constructor
      · rw [ih1]
        constructor
        · rintro (⟨r, hr, hid, hs⟩ | hmem)
          · exact Or.inl ⟨r, List.mem_cons_of_mem _ hr, hid, hs⟩
          · exact Or.inr hmem
        · rintro (⟨r, hr, hid, hs⟩ | hmem)
          · rcases List.mem_cons.mp hr with hr' | hr'
            · rw [hr'] at hs
              cases hs
            · exact Or.inl ⟨r, hr', hid, hs⟩
          · exact Or.inr hmem
      · rw [ih2]
        constructor
        · rintro (⟨r, hr, hid, hs⟩ | hmem)
          · exact Or.inl ⟨r, List.mem_cons_of_mem _ hr, hid, hs⟩
          · rcases (mem_mkeys_dinsert rid (err.getD "") acc.2 id).mp hmem with h | h
            · exact Or.inl ⟨(rid, none, err), List.mem_cons_self _ _, h.symm, rfl⟩
            · exact Or.inr h
        · rintro (⟨r, hr, hid, hs⟩ | hmem)
          · rcases List.mem_cons.mp hr with hr' | hr'
            · subst hr'
              exact Or.inr ((mem_mkeys_dinsert rid (err.getD "") acc.2 id).mpr (Or.inl hid.symm))
            · exact Or.inl ⟨r, hr', hid, hs⟩
          · exact Or.inr ((mem_mkeys_dinsert rid (err.getD "") acc.2 id).mpr (Or.inr hmem))

/-- After the Stage-A collection loop, an ID is a key of the success map
iff some task for it succeeded. -/
theorem mem_mkeys_collectA_succ (rs : List (Str × Option Nat × Option String)) (id : Str) :
    id ∈ mkeys (collectA rs).1 ↔ ∃ r ∈ rs, r.1 = id ∧ (r.2.1).isSome := by
  have h := (collectA_keys_general rs ([], []) id).1
  simpa [collectA, mkeys] using h

/-- After the Stage-A collection loop, an ID is a key of the error map
iff some task for it failed. -/
theorem mem_mkeys_collectA_err (rs : List (Str × Option Nat × Option String)) (id : Str) :
    id ∈ mkeys (collectA rs).2 ↔ ∃ r ∈ rs, r.1 = id ∧ r.2.1 = none := by
  have h := (collectA_keys_general rs ([], []) id).2
  simpa [collectA, mkeys] using h

theorem collectA_nodup_general (rs : List (Str × Option Nat × Option String)) :
    ∀ acc : PyDict Str Nat × PyDict Str String,
      (mkeys acc.1).Nodup → (mkeys acc.2).Nodup →
      (mkeys (rs.foldl stepA acc).1).Nodup ∧ (mkeys (rs.foldl stepA acc).2).Nodup := by
  induction rs with
  | nil => intro acc h1 h2; exact ⟨h1, h2⟩
  | cons r rs ih =>
    intro acc h1 h2
    rw [List.foldl_cons]
    rcases r with ⟨rid, sv, err⟩
    cases sv with
    | some s =>
      rw [stepA_some]
      exact ih _ (nodup_mkeys_dinsert rid s acc.1 h1) h2
    | none =>
      rw [stepA_none]
      exact ih _ h1 (nodup_mkeys_dinsert rid (err.getD "") acc.2 h2)

/-- The Stage-A maps have no duplicate keys. -/
theorem collectA_nodup (rs : List (Str × Option Nat × Option String)) :
    (mkeys (collectA rs).1).Nodup ∧ (mkeys (collectA rs).2).Nodup :=
  collectA_nodup_general rs ([], []) (by simp [mkeys]) (by simp [mkeys])

theorem collectA_lookup_general (w : Str → Str × Option Nat × Option String)
    (hw : ∀ x : Str, (w x).1 = x) (order : List Str) :
    ∀ acc : PyDict Str Nat × PyDict Str String, ∀ id : Str,
      (mlookup ((order.map w).foldl stepA acc).1 id =
        if id ∈ order ∧ ((w id).2.1).isSome then (w id).2.1 else mlookup acc.1 id) ∧
      (mlookup ((order.map w).foldl stepA acc).2 id =
        if id ∈ order ∧ (w id).2.1 = none then some ((w id).2.2.getD "")
        else mlookup acc.2 id) := by
  induction order with
  | nil => intro acc id; simp
  | cons x order ih =>
    intro acc id
    rw [List.map_cons, List.foldl_cons]
    rcases hwx : w x with ⟨x1, sv, err⟩
    have hx1 : x1 = x := by
      have := hw x
      rw [hwx] at this
      exact this
    subst hx1
    rcases ih (stepA acc (x1, sv, err)) id with ⟨ih1, ih2⟩
    rw [ih1, ih2]
    cases sv with
    | some s =>
      rw [stepA_some]
      by_cases h : id = x1
      · subst h
        simp [mlookup_dinsert, hwx, List.mem_cons]
      · simp [mlookup_dinsert, h, List.mem_cons]
    | none =>
      rw [stepA_none]
      by_cases h : id = x1
      · subst h
        simp [mlookup_dinsert, hwx, List.mem_cons]
      · simp [mlookup_dinsert, h, List.mem_cons]

/-- Lookup in the Stage-A maps when the per-task outcome is a function of
the ID (deterministic remote service): membership in the completion order
is all that matters. -/
theorem collectA_lookup (w : Str → Str × Option Nat × Option String)
    (hw : ∀ x : Str, (w x).1 = x) (order : List Str) (id : Str) :
    (mlookup (collectA (order.map w)).1 id =
      if id ∈ order ∧ ((w id).2.1).isSome then (w id).2.1 else none) ∧
    (mlookup (collectA (order.map w)).2 id =
      if id ∈ order ∧ (w id).2.1 = none then some ((w id).2.2.getD "") else none) := by
  have h := collectA_lookup_general w hw order ([], []) id
  simpa [collectA, mlookup] using h

theorem flatten_chunksFuel (n : Nat) (hn : 1 ≤ n) :
    ∀ fuel : Nat, ∀ l : List α, l.length ≤ fuel → (chunksFuel n fuel l).flatten = l := by
  intro fuel
  induction fuel with
  | zero =>
    intro l hl
    have : l = [] := List.length_eq_zero.mp (Nat.le_zero.mp hl)
    subst this
    rfl
  | succ f ih =>
    intro l hl
    cases l with
    | nil => rfl
    | cons c rest =>
      have hdrop : ((c :: rest).drop n).length ≤ f := by
        rw [List.length_drop]
        simp only [List.length_cons] at hl ⊢
        omega
      simp only [chunksFuel, List.flatten_cons, ih _ hdrop, List.take_append_drop]

/-- The Stage-B chunking covers the input exactly. -/
theorem flatten_pyChunks (n : Nat) (hn : 1 ≤ n) (l : List α) :
    (pyChunks n l).flatten = l :=
  flatten_chunksFuel n hn l.length l (Nat.le_refl _)

theorem roots_fold_lookup_map (rootf : Nat → Nat) (c : List Nat) :
    ∀ m : PyDict Nat Nat, ∀ sv : Nat,
      mlookup (((c.map fun x => (x, rootf x)).foldl (fun m (p : Nat × Nat) => dinsert p.1 p.2 m) m)) sv =
        if sv ∈ c then some (rootf sv) else mlookup m sv := by
  induction c with
  | nil => intro m sv; simp
  | cons x c ih =>
    intro m sv
    rw [List.map_cons, List.foldl_cons, ih]
    by_cases h : sv = x
    · subst h
      simp [mlookup_dinsert, List.mem_cons]
    · simp [mlookup_dinsert, h, List.mem_cons]

theorem roots_fold_lookup (rootf : Nat → Nat) (c : List Nat)
    (m : PyDict Nat Nat) (sv : Nat) :
    mlookup ((c.zip (c.map rootf)).foldl (fun m (p : Nat × Nat) => dinsert p.1 p.2 m) m) sv =
      if sv ∈ c then some (rootf sv) else mlookup m sv := by
  have hzip : c.zip (c.map rootf) = c.map fun x => (x, rootf x) := by
    simpa using List.zip_map' id rootf c
  rw [hzip, roots_fold_lookup_map]

theorem roots_chunks_fold (client : Client) (rootf : Nat → Nat)
    (hroots : ∀ c : List Nat, client.get_roots c = .ok (c.map rootf))
    (cs : List (List Nat)) :
    ∀ acc : PyDict Nat Nat,
      ∃ R : PyDict Nat Nat,
        cs.foldlM
          (fun m chunk =>
            match client.get_roots chunk with
            | .ok new_roots =>
              Except.ok ((chunk.zip new_roots).foldl (fun m (p : Nat × Nat) => dinsert p.1 p.2 m) m)
            | .error e => Except.error e)
          acc = .ok R ∧
        ∀ sv : Nat, mlookup R sv = if sv ∈ cs.flatten then some (rootf sv) else mlookup acc sv := by
  induction cs with
  | nil =>
    intro acc
    exact ⟨acc, rfl, by intro sv; simp⟩
  | cons c cs ih =>
    intro acc
    rcases ih ((c.zip (c.map rootf)).foldl (fun m (p : Nat × Nat) => dinsert p.1 p.2 m) acc) with ⟨R, hR, hlook⟩
    refine ⟨R, ?_, ?_⟩
    · rw [List.foldlM_cons, hroots c]
      simpa using hR
    · intro sv
      rw [hlook sv, roots_fold_lookup]
      by_cases h : sv ∈ c
      · simp [h, List.mem_append]
      · by_cases h2 : sv ∈ cs.flatten <;> simp [h, h2, List.flatten_cons, List.mem_append]

/-- Stage B of the validator with a pointwise deterministic `get_roots`
stub: no fault, and the resulting map sends exactly the submitted leaves
to their roots. -/
theorem stageBRoots_pointwise (client : Client) (rootf : Nat → Nat)
    (hroots : ∀ c : List Nat, client.get_roots c = .ok (c.map rootf)) (l : List Nat) :
    ∃ R : PyDict Nat Nat, stageBRoots client l = .ok R ∧
      ∀ sv : Nat, mlookup R sv = if sv ∈ l then some (rootf sv) else none := by
  rcases roots_chunks_fold client rootf hroots (pyChunks 5000 l) [] with ⟨R, hR, hlook⟩
  refine ⟨R, hR, ?_⟩
  intro sv
  rw [hlook sv, flatten_pyChunks 5000 (by omega) l]
  simp [mlookup]

theorem roots_foldlM_error (client : Client) (cs : List (List Nat))
    (hex : ∃ c ∈ cs, ∃ e : String, client.get_roots c = .error e) :
    ∀ acc : PyDict Nat Nat,
      ∃ e' : String,
        cs.foldlM
          (fun m chunk =>
            match client.get_roots chunk with
            | .ok new_roots =>
              Except.ok ((chunk.zip new_roots).foldl (fun m (p : Nat × Nat) => dinsert p.1 p.2 m) m)
            | .error e => Except.error e)
          acc = .error e' := by
  induction cs with
  | nil => rcases hex with ⟨c, hc, _⟩; cases hc
  | cons c cs ih =>
    intro acc
    rcases hg : client.get_roots c with ⟨e⟩ | roots
    · exact ⟨e, by rw [List.foldlM_cons, hg]; rfl⟩
    · rcases hex with ⟨c', hc', e', he'⟩
      rcases List.mem_cons.mp hc' with h | h
      · subst h
        rw [hg] at he'
        cases he'
      · rcases ih ⟨c', h, e', he'⟩ ((c.zip roots).foldl (fun m (p : Nat × Nat) => dinsert p.1 p.2 m) acc) with ⟨e'', he''⟩
        refine ⟨e'', ?_⟩
        rw [List.foldlM_cons, hg]
        simpa using he''

/-- If any Stage-B chunk of the validator faults, the whole Stage-B fold
raises (`Except.error`). -/
theorem stageBRoots_error (client : Client) (l : List Nat)
    (hex : ∃ c ∈ pyChunks 5000 l, ∃ e : String, client.get_roots c = .error e) :
    ∃ e' : String, stageBRoots client l = .error e' :=
  roots_foldlM_error client (pyChunks 5000 l) hex []

theorem l2_fold_lookup (entryf : Nat → Option (Option Coord3)) (c : List Nat) :
    ∀ m : PyDict Str (Option Coord3), ∀ y : Nat,
      mlookup ((c.filterMap fun x => (entryf x).map fun v => (pyStrOfNat x, v)).foldl
          (fun m (p : Str × Option Coord3) => dinsert p.1 p.2 m) m) (pyStrOfNat y) =
        if y ∈ c ∧ (entryf y).isSome then entryf y else mlookup m (pyStrOfNat y) := by
  induction c with
  | nil => intro m y; simp
  | cons x c ih =>
    intro m y
    rw [List.filterMap_cons]
    cases hx : entryf x with
    | none =>
      simp only [hx, Option.map_none']
      rw [ih]
      by_cases h : y = x
      · subst h
        simp [hx, List.mem_cons]
      · simp [h, List.mem_cons]
    | some v =>
      simp only [hx, Option.map_some']
      rw [List.foldl_cons, ih]
      by_cases h : y = x
      · subst h
        simp [mlookup_dinsert, hx, List.mem_cons]
      · have hne : ¬ pyStrOfNat y = pyStrOfNat x := fun hh => h (pyStrOfNat_injective hh)
        simp [mlookup_dinsert, hne, h, List.mem_cons]

theorem l2_chunks_fold (client : Client) (entryf : Nat → Option (Option Coord3))
    (hl2 : ∀ c : List Nat,
      client.get_l2data c = .ok (c.filterMap fun x => (entryf x).map fun v => (pyStrOfNat x, v)))
    (cs : List (List Nat)) :
    ∀ acc : PyDict Str (Option Coord3), ∀ y : Nat,
      mlookup
        (cs.foldl
          (fun m chunk =>
            match client.get_l2data chunk with
            | .ok chunk_data =>
              chunk_data.foldl (fun m (p : Str × Option Coord3) => dinsert p.1 p.2 m) m
            | .error _ => m)
          acc) (pyStrOfNat y) =
      if y ∈ cs.flatten ∧ (entryf y).isSome then entryf y else mlookup acc (pyStrOfNat y) := by
  induction cs with
  | nil => intro acc y; simp
  | cons c cs ih =>
    intro acc y
    rw [List.foldl_cons]
    rw [show (match client.get_l2data c with
        | .ok chunk_data =>
          chunk_data.foldl (fun m (p : Str × Option Coord3) => dinsert p.1 p.2 m) acc
        | .error _ => acc) =
      (c.filterMap fun x => (entryf x).map fun v => (pyStrOfNat x, v)).foldl
        (fun m (p : Str × Option Coord3) => dinsert p.1 p.2 m) acc from by rw [hl2 c]]
    rw [ih, l2_fold_lookup]
    by_cases h : y ∈ c
    · by_cases hs : (entryf y).isSome
      · simp [h, hs, List.flatten_cons, List.mem_append]
      · simp [h, hs, List.flatten_cons, List.mem_append]
    · by_cases h2 : y ∈ cs.flatten <;>
        simp [h, h2, List.flatten_cons, List.mem_append]

/-- Stage B of the coordinate pipeline with a pointwise deterministic
`get_l2data` stub: the final dict answers exactly the per-leaf entries of
the submitted leaves. -/
theorem stageBL2_pointwise (client : Client) (entryf : Nat → Option (Option Coord3))
    (hl2 : ∀ c : List Nat,
      client.get_l2data c = .ok (c.filterMap fun x => (entryf x).map fun v => (pyStrOfNat x, v)))
    (l : List Nat) (y : Nat) :
    mlookup (stageBL2 client l) (pyStrOfNat y) =
      if y ∈ l ∧ (entryf y).isSome then entryf y else none := by
  have h := l2_chunks_fold client entryf hl2 (pyChunks 100 l) [] y
  rw [flatten_pyChunks 100 (by omega) l] at h
  simpa [stageBL2, mlookup] using h

theorem fold_dinsert_lookup_ne [DecidableEq α] (d : PyDict α β) :
    ∀ m : PyDict α β, ∀ k : α, (∀ p ∈ d, ¬ p.1 = k) →
      mlookup (d.foldl (fun m (p : α × β) => dinsert p.1 p.2 m) m) k = mlookup m k := by
  induction d with
  | nil => intro m k _; rfl
  | cons p d ih =>
    intro m k hk
    rw [List.foldl_cons, ih _ k (fun q hq => hk q (List.mem_cons_of_mem p hq)),
      mlookup_dinsert]
    rw [if_neg fun hh => hk p (List.mem_cons_self p d) hh.symm]

theorem l2_chunks_fold_fault (client : Client) (l2 : Nat)
    (hkeys : ∀ c : List Nat, ∀ d : PyDict Str (Option Coord3),
      client.get_l2data c = .ok d → ∀ p ∈ d, ∃ x ∈ c, p.1 = pyStrOfNat x)
    (cs : List (List Nat)) :
    ∀ acc : PyDict Str (Option Coord3),
      (∀ c ∈ cs, l2 ∈ c → ∃ e : String, client.get_l2data c = .error e) →
      mlookup
        (cs.foldl
          (fun m chunk =>
            match client.get_l2data chunk with
            | .ok chunk_data =>
              chunk_data.foldl (fun m (p : Str × Option Coord3) => dinsert p.1 p.2 m) m
            | .error _ => m)
          acc) (pyStrOfNat l2) = mlookup acc (pyStrOfNat l2) := by
  induction cs with
  | nil => intro acc _; rfl
  | cons c cs ih =>
    intro acc hfault
    rw [List.foldl_cons]
    rcases hg : client.get_l2data c with ⟨e⟩ | d
    · exact ih acc fun c' hc' h => hfault c' (List.mem_cons_of_mem c hc') h
    · have hnotin : l2 ∉ c := by
        intro hmem
        rcases hfault c (List.mem_cons_self c cs) hmem with ⟨e, he⟩
        rw [hg] at he
        cases he
      have hne : ∀ p ∈ d, ¬ p.1 = pyStrOfNat l2 := by
        intro p hp hcontra
        rcases hkeys c d hg p hp with ⟨x, hx, hkey⟩
        rw [hcontra] at hkey
        have hxx : l2 = x := pyStrOfNat_injective hkey
        subst hxx
        exact hnotin hx
      have key := ih (d.foldl (fun m (p : Str × Option Coord3) => dinsert p.1 p.2 m) acc)
        (fun c' hc' h => hfault c' (List.mem_cons_of_mem c hc') h)
      rw [fold_dinsert_lookup_ne d acc (pyStrOfNat l2) hne] at key
      exact key

/-- If every Stage-B chunk containing a leaf faults (and the service only
returns keys for leaves it was asked about), that leaf's key is absent
from the coordinate result dict. -/
theorem stageBL2_fault_none (client : Client) (l : List Nat) (l2 : Nat)
    (hkeys : ∀ c : List Nat, ∀ d : PyDict Str (Option Coord3),
      client.get_l2data c = .ok d → ∀ p ∈ d, ∃ x ∈ c, p.1 = pyStrOfNat x)
    (hfault : ∀ c ∈ pyChunks 100 l, l2 ∈ c → ∃ e : String, client.get_l2data c = .error e) :
    mlookup (stageBL2 client l) (pyStrOfNat l2) = none := by
  have h := l2_chunks_fold_fault client l2 hkeys (pyChunks 100 l) [] hfault
  simpa [stageBL2, mlookup] using h

/-- The validator report line for one InputID, as a function of the three
Stage-A/B maps (the branch structure of the `STEP 3` loop body). -/
def vRow (errors : PyDict Str String) (id_to_sv : PyDict Str Nat)
    (sv_to_root : PyDict Nat Nat) (old_id : Str) : VLine :=
  match mlookup errors old_id with
  | some reason => .errorRow old_id reason
  | none =>
    match mlookup id_to_sv old_id with
    | some sv =>
      match mlookup sv_to_root sv with
      | some root =>
        let new_id := pyStrOfNat root
        if new_id ≠ old_id then .changedRow old_id new_id else .okRow old_id
      | none => .errorRow old_id "lookup failed"
    | none => .errorRow old_id "lookup failed"

/-- The clean updated-IDs entry for one InputID. -/
def vUpd (errors : PyDict Str String) (id_to_sv : PyDict Str Nat)
    (sv_to_root : PyDict Nat Nat) (old_id : Str) : Str :=
  match mlookup errors old_id with
  | some _ => old_id
  | none =>
    match mlookup id_to_sv old_id with
    | some sv =>
      match mlookup sv_to_root sv with
      | some root =>
        let new_id := pyStrOfNat root
        if new_id ≠ old_id then new_id else old_id
      | none => old_id
    | none => old_id

/-- Whether a validator line is a `Changed` line. -/
def VLine.isChangedRow : VLine → Bool
  | .changedRow _ _ => true
  | _ => false

/-- Whether a validator line is an `[OK - Current]` line. -/
def VLine.isOkRow : VLine → Bool
  | .okRow _ => true
  | _ => false

/-- Whether a validator line is an error line. -/
def VLine.isErrRow : VLine → Bool
  | .errorRow _ _ => true
  | _ => false

theorem vStep_eq (e : PyDict Str String) (m : PyDict Str Nat) (r : PyDict Nat Nat)
    (acc : VResult) (old_id : Str) :
    vStep e m r acc old_id =
      ⟨acc.lines ++ [vRow e m r old_id],
       acc.changed + (if (vRow e m r old_id).isChangedRow then 1 else 0),
       acc.unchanged + (if (vRow e m r old_id).isOkRow then 1 else 0),
       acc.errCount + (if (vRow e m r old_id).isErrRow then 1 else 0),
       acc.updated ++ [vUpd e m r old_id]⟩ := by
  unfold vStep vRow vUpd
  cases hE : mlookup e old_id with
  | some reason => simp [VLine.isChangedRow, VLine.isOkRow, VLine.isErrRow]
  | none =>
    cases hM : mlookup m old_id with
    | none => simp [VLine.isChangedRow, VLine.isOkRow, VLine.isErrRow]
    | some sv =>
      cases hR : mlookup r sv with
      | none => simp [hR, VLine.isChangedRow, VLine.isOkRow, VLine.isErrRow]
      | some root =>
        by_cases h : pyStrOfNat root = old_id
        · simp [hR, h, VLine.isChangedRow, VLine.isOkRow, VLine.isErrRow]
        · simp [hR, h, VLine.isChangedRow, VLine.isOkRow, VLine.isErrRow]

theorem buildValidator_foldl (e : PyDict Str String) (m : PyDict Str Nat)
    (r : PyDict Nat Nat) (ids : List Str) :
    ∀ acc : VResult,
      ids.foldl (vStep e m r) acc =
        ⟨acc.lines ++ ids.map (vRow e m r),
         acc.changed + ids.countP (fun i => (vRow e m r i).isChangedRow),
         acc.unchanged + ids.countP (fun i => (vRow e m r i).isOkRow),
         acc.errCount + ids.countP (fun i => (vRow e m r i).isErrRow),
         acc.updated ++ ids.map (vUpd e m r)⟩ := by
  induction ids with
  | nil =>
    intro acc
    cases acc
    simp
  | cons id ids ih =>
    intro acc
    rw [List.foldl_cons, vStep_eq, ih]
    simp only [VResult.mk.injEq, List.map_cons, List.countP_cons]
    refine ⟨by simp, by split_ifs <;> omega, by split_ifs <;> omega, by split_ifs <;> omega, by simp⟩

/-- The validator Stage-C result in closed form: one line and one clean
entry per input ID, and the counters count the line kinds. -/
theorem buildValidator_eq (e : PyDict Str String) (m : PyDict Str Nat)
    (r : PyDict Nat Nat) (ids : List Str) :
    buildValidator ids e m r =
      ⟨ids.map (vRow e m r),
       ids.countP (fun i => (vRow e m r i).isChangedRow),
       ids.countP (fun i => (vRow e m r i).isOkRow),
       ids.countP (fun i => (vRow e m r i).isErrRow),
       ids.map (vUpd e m r)⟩ := by
  unfold buildValidator
  rw [buildValidator_foldl]
  simp

/-- The coordinate report row for one InputID. -/
def cRow (errors : PyDict Str String) (id_to_l2 : PyDict Str Nat)
    (l2_data : PyDict Str (Option Coord3)) (viewer_res : Coord3) (root_id : Str) : CRow :=
  match mlookup errors root_id with
  | some _ => .errorRow root_id
  | none =>
    match mlookup id_to_l2 root_id with
    | some l2_id =>
      match mlookup l2_data (pyStrOfNat l2_id) with
      | some (some rep_coord) => .coordsRow root_id (toVoxel rep_coord viewer_res)
      | some none => .naRow root_id
      | none => .naRow root_id
    | none => .naRow root_id

/-- Whether a coordinate row is a successful coordinates row. -/
def CRow.isCoordsRow : CRow → Bool
  | .coordsRow _ _ => true
  | _ => false

theorem cStep_eq (e : PyDict Str String) (m : PyDict Str Nat)
    (d : PyDict Str (Option Coord3)) (vres : Coord3) (acc : CResult) (root_id : Str) :
    cStep e m d vres acc root_id =
      ⟨acc.rows ++ [cRow e m d vres root_id],
       acc.success + (if (cRow e m d vres root_id).isCoordsRow then 1 else 0),
       acc.fail + (if (cRow e m d vres root_id).isCoordsRow then 0 else 1)⟩ := by
  unfold cStep cRow
  cases hE : mlookup e root_id with
  | some reason => simp [CRow.isCoordsRow]
  | none =>
    cases hM : mlookup m root_id with
    | none => simp [CRow.isCoordsRow]
    | some l2 =>
      cases hD : mlookup d (pyStrOfNat l2) with
      | none => simp [hD, CRow.isCoordsRow]
      | some rep =>
        cases rep with
        | none => simp [hD, CRow.isCoordsRow]
        | some rc => simp [hD, CRow.isCoordsRow]

theorem buildCoords_foldl (e : PyDict Str String) (m : PyDict Str Nat)
    (d : PyDict Str (Option Coord3)) (vres : Coord3) (ids : List Str) :
    ∀ acc : CResult,
      ids.foldl (cStep e m d vres) acc =
        ⟨acc.rows ++ ids.map (cRow e m d vres),
         acc.success + ids.countP (fun i => (cRow e m d vres i).isCoordsRow),
         acc.fail + ids.countP (fun i => !(cRow e m d vres i).isCoordsRow)⟩ := by
  induction ids with
  | nil =>
    intro acc
    cases acc
    simp
  | cons id ids ih =>
    intro acc
    rw [List.foldl_cons, cStep_eq, ih]
    simp only [CResult.mk.injEq, List.map_cons, List.countP_cons]
    refine ⟨by simp, by split_ifs <;> omega, ?_⟩
    by_cases h : (cRow e m d vres id).isCoordsRow
    · simp [h]
    · simp [h]
      omega

/-- The coordinate Stage-C result in closed form: the header row followed
by one row per input ID, and the counters count the row kinds. -/
theorem buildCoords_eq (e : PyDict Str String) (m : PyDict Str Nat)
    (d : PyDict Str (Option Coord3)) (vres : Coord3) (ids : List Str) :
    buildCoords vres ids e m d =
      ⟨CRow.headerRow :: ids.map (cRow e m d vres),
       ids.countP (fun i => (cRow e m d vres i).isCoordsRow),
       ids.countP (fun i => !(cRow e m d vres i).isCoordsRow)⟩ := by
  unfold buildCoords
  rw [buildCoords_foldl]
  simp

theorem vRow_rowId (e : PyDict Str String) (m : PyDict Str Nat) (r : PyDict Nat Nat)
    (id : Str) : (vRow e m r id).rowId = id := by
  unfold vRow
  cases hE : mlookup e id with
  | some reason => simp [hE, VLine.rowId]
  | none =>
    cases hM : mlookup m id with
    | none => simp [hE, hM, VLine.rowId]
    | some sv =>
      cases hR : mlookup r sv with
      | none => simp [hE, hM, hR, VLine.rowId]
      | some root =>
        by_cases h : pyStrOfNat root = id <;> simp [hE, hM, hR, h, VLine.rowId]

theorem cRow_rowId (e : PyDict Str String) (m : PyDict Str Nat)
    (d : PyDict Str (Option Coord3)) (vres : Coord3) (id : Str) :
    (cRow e m d vres id).rowId = id := by
  unfold cRow
  cases hE : mlookup e id with
  | some reason => simp [hE, CRow.rowId]
  | none =>
    cases hM : mlookup m id with
    | none => simp [hE, hM, CRow.rowId]
    | some l2 =>
      cases hD : mlookup d (pyStrOfNat l2) with
      | none => simp [hE, hM, hD, CRow.rowId]
      | some rep => cases rep <;> simp [hE, hM, hD, CRow.rowId]

theorem vline_kinds (f : Str → VLine) (ids : List Str) :
    ids.countP (fun i => (f i).isChangedRow) + ids.countP (fun i => (f i).isOkRow) +
      ids.countP (fun i => (f i).isErrRow) = ids.length := by
  induction ids with
  | nil => simp
  | cons id ids ih =>
    simp only [List.countP_cons, List.length_cons]
    cases h : f id with
    | errorRow a b =>
      have e1 : (VLine.errorRow a b).isChangedRow = false := rfl
      have e2 : (VLine.errorRow a b).isOkRow = false := rfl
      have e3 : (VLine.errorRow a b).isErrRow = true := rfl
      simp only [e1, e2, e3]
      simp
      omega
    | changedRow a b =>
      have e1 : (VLine.changedRow a b).isChangedRow = true := rfl
      have e2 : (VLine.changedRow a b).isOkRow = false := rfl
      have e3 : (VLine.changedRow a b).isErrRow = false := rfl
      simp only [e1, e2, e3]
      simp
      omega
    | okRow a =>
      have e1 : (VLine.okRow a).isChangedRow = false := rfl
      have e2 : (VLine.okRow a).isOkRow = true := rfl
      have e3 : (VLine.okRow a).isErrRow = false := rfl
      simp only [e1, e2, e3]
      simp
      omega

theorem countP_bool_split (f : Str → Bool) (ids : List Str) :
    ids.countP (fun i => f i) + ids.countP (fun i => !f i) = ids.length := by
  induction ids with
  | nil => simp
  | cons id ids ih =>
    simp only [List.countP_cons, List.length_cons]
    cases h : f id <;> simp [h] <;> omega

/-- C1: the Stage-C assembly of each pipeline emits exactly one data row
per occurrence of a recognized InputID, in the original input order (the
coordinate report additionally begins with its header row), for every
outcome of Stages A and B. -/
theorem claim_C1_completeness (ids : List Str) (e : PyDict Str String)
    (m : PyDict Str Nat) (r : PyDict Nat Nat) (d : PyDict Str (Option Coord3))
    (vres : Coord3) :
    (buildValidator ids e m r).lines.length = ids.length ∧
    (buildValidator ids e m r).lines.map VLine.rowId = ids ∧
    (buildCoords vres ids e m d).rows.length = ids.length + 1 ∧
    (buildCoords vres ids e m d).rows.head? = some CRow.headerRow ∧
    (buildCoords vres ids e m d).rows.tail.map CRow.rowId = ids := by
  rw [buildValidator_eq, buildCoords_eq]
  refine ⟨by simp, ?_, by simp, by simp, ?_⟩
  · rw [List.map_map]
    have hcomp : (VLine.rowId ∘ vRow e m r) = id := funext fun i => vRow_rowId e m r i
    rw [hcomp, List.map_id]
  · simp only [List.tail_cons, List.map_map]
    have hcomp : (CRow.rowId ∘ cRow e m d vres) = id := funext fun i => cRow_rowId e m d vres i
    rw [hcomp, List.map_id]

/-- C9: the Stage-C classification counters partition the recognized
InputIDs: `changed + unchanged + errors` equals the number of IDs (which
is also the length of the clean updated-IDs list), and
`success + fail` equals the number of IDs in the coordinate pipeline. -/
theorem claim_C9_counters (ids : List Str) (e : PyDict Str String)
    (m : PyDict Str Nat) (r : PyDict Nat Nat) (d : PyDict Str (Option Coord3))
    (vres : Coord3) :
    (buildValidator ids e m r).changed + (buildValidator ids e m r).unchanged +
        (buildValidator ids e m r).errCount = ids.length ∧
    (buildValidator ids e m r).updated.length = ids.length ∧
    (buildCoords vres ids e m d).success + (buildCoords vres ids e m d).fail = ids.length := by
  rw [buildValidator_eq, buildCoords_eq]
  exact ⟨vline_kinds (vRow e m r) ids, by simp,
    countP_bool_split (fun i => (cRow e m d vres i).isCoordsRow) ids⟩

/-- C6: in the validator Stage C, an InputID that is not in the error map,
has a Stage-A leaf, and whose leaf has a Stage-B root, is classified by
string comparison: `Unchanged` iff `str(root)` equals the InputID string,
otherwise `Changed(str(root))`. -/
theorem claim_C6_validator_classification (ids : List Str) (e : PyDict Str String)
    (m : PyDict Str Nat) (r : PyDict Nat Nat) (i : Nat) (id : Str) (sv root : Nat)
    (hi : ids[i]? = some id) (he : mlookup e id = none)
    (hm : mlookup m id = some sv) (hr : mlookup r sv = some root) :
    (buildValidator ids e m r).lines[i]? =
      some (if pyStrOfNat root = id then VLine.okRow id
            else VLine.changedRow id (pyStrOfNat root)) := by
  rw [buildValidator_eq]
  simp only [List.getElem?_map, hi, Option.map_some']
  congr 1
  unfold vRow
  simp only [he, hm, hr]
  by_cases h : pyStrOfNat root = id <;> simp [h]

theorem tdiv_trunc (a b : Int) (hb : 0 < b) :
    (0 ≤ a → b * Int.tdiv a b ≤ a ∧ a < b * (Int.tdiv a b + 1)) ∧
    (a ≤ 0 → b * (Int.tdiv a b - 1) < a ∧ a ≤ b * Int.tdiv a b) := by
  have key : ∀ x : Int, 0 ≤ x → b * Int.tdiv x b ≤ x ∧ x < b * (Int.tdiv x b + 1) := by
    intro x hx
    rw [Int.tdiv_eq_ediv hx (le_of_lt hb)]
    have h1 := Int.ediv_add_emod x b
    have h2 := Int.emod_nonneg x (by omega : b ≠ 0)
    have h3 := Int.emod_lt_of_pos x hb
    have h4 : b * (x / b + 1) = b * (x / b) + b := by ring
    constructor <;> linarith
  constructor
  · exact key a
  · intro ha
    have hnega : 0 ≤ -a := by omega
    rcases key (-a) hnega with ⟨k1, k2⟩
    have hneg := Int.neg_tdiv a b
    have e1 : Int.tdiv (-a) b = -Int.tdiv a b := hneg
    rw [e1] at k1 k2
    constructor <;> nlinarith

/-- C7: the emitted voxel coordinate is the element-wise quotient of the
raw nanometer coordinate by the resolution, truncated toward zero
(floor of the quotient for nonnegative raws, ceiling for nonpositive),
and in particular `[400, 800, 1600] / [4, 4, 40] = (100, 200, 40)` and
`[399, 0, 0] / [4, 1, 1] = (99, 0, 0)`. -/
theorem claim_C7_coordinate_conversion (raw res : Coord3)
    (h1 : 0 < res.1) (h2 : 0 < res.2.1) (h3 : 0 < res.2.2) :
    ((0 ≤ raw.1 → res.1 * (toVoxel raw res).1 ≤ raw.1 ∧
        raw.1 < res.1 * ((toVoxel raw res).1 + 1)) ∧
     (raw.1 ≤ 0 → res.1 * ((toVoxel raw res).1 - 1) < raw.1 ∧
        raw.1 ≤ res.1 * (toVoxel raw res).1)) ∧
    ((0 ≤ raw.2.1 → res.2.1 * (toVoxel raw res).2.1 ≤ raw.2.1 ∧
        raw.2.1 < res.2.1 * ((toVoxel raw res).2.1 + 1)) ∧
     (raw.2.1 ≤ 0 → res.2.1 * ((toVoxel raw res).2.1 - 1) < raw.2.1 ∧
        raw.2.1 ≤ res.2.1 * (toVoxel raw res).2.1)) ∧
    ((0 ≤ raw.2.2 → res.2.2 * (toVoxel raw res).2.2 ≤ raw.2.2 ∧
        raw.2.2 < res.2.2 * ((toVoxel raw res).2.2 + 1)) ∧
     (raw.2.2 ≤ 0 → res.2.2 * ((toVoxel raw res).2.2 - 1) < raw.2.2 ∧
        raw.2.2 ≤ res.2.2 * (toVoxel raw res).2.2)) ∧
    toVoxel (400, 800, 1600) (4, 4, 40) = (100, 200, 40) ∧
    toVoxel (399, 0, 0) (4, 1, 1) = (99, 0, 0) :=
  ⟨tdiv_trunc raw.1 res.1 h1, tdiv_trunc raw.2.1 res.2.1 h2,
   tdiv_trunc raw.2.2 res.2.2 h3, by decide, by decide⟩

/-- Witness for C7 at the spec's concrete example. -/
theorem claim_C7_witness :
    (0:Int) < 4 ∧ ((0:Int) ≤ 400 →
      (4:Int) * (toVoxel (400, 800, 1600) (4, 4, 40)).1 ≤ 400 ∧
      (400:Int) < 4 * ((toVoxel (400, 800, 1600) (4, 4, 40)).1 + 1)) :=
  ⟨by decide,
   (claim_C7_coordinate_conversion (400, 800, 1600) (4, 4, 40)
     (by decide) (by decide) (by decide)).1.1⟩

/-- C5: the Stage-A worker never raises: it returns `Resolved(first)` on a
non-empty leaf list, `Failed` with the pipeline's no-leaves message on an
empty list, and `Failed` with the fault's message when the remote call
raises, in both pipelines, with no retry (a single response decides the
task's outcome). -/
theorem claim_C5_worker_outcomes (client : Client) (root_id : Str) :
    (∀ sv : Nat, ∀ rest : List Nat,
      client.get_leaves (pyIntOfStr root_id) = .ok (sv :: rest) →
        get_one_supervoxel client root_id = (root_id, some sv, none)) ∧
    (client.get_leaves (pyIntOfStr root_id) = .ok [] →
      get_one_supervoxel client root_id = (root_id, none, some "No supervoxels found")) ∧
    (∀ e : String, client.get_leaves (pyIntOfStr root_id) = .error e →
      get_one_supervoxel client root_id = (root_id, none, some e)) ∧
    (∀ l2 : Nat, ∀ rest : List Nat,
      client.get_leaves2 (pyIntOfStr root_id) = .ok (l2 :: rest) →
        get_one_l2 client root_id = (root_id, some l2, none)) ∧
    (client.get_leaves2 (pyIntOfStr root_id) = .ok [] →
      get_one_l2 client root_id = (root_id, none, some "No L2 chunks found")) ∧
    (∀ e : String, client.get_leaves2 (pyIntOfStr root_id) = .error e →
      get_one_l2 client root_id = (root_id, none, some e)) := by
  unfold get_one_supervoxel get_one_l2 workerResult
  refine ⟨?_, ?_, ?_, ?_, ?_, ?_⟩
  · intro sv rest h
    rw [h]
  · intro h
    rw [h]
  · intro e h
    rw [h]
  · intro l2 rest h
    rw [h]
  · intro h
    rw [h]
  · intro e h
    rw [h]

theorem vRow_congr (e e' : PyDict Str String) (m m' : PyDict Str Nat)
    (r r' : PyDict Nat Nat) (id : Str)
    (he : mlookup e id = mlookup e' id) (hm : mlookup m id = mlookup m' id)
    (hr : ∀ sv : Nat, mlookup r sv = mlookup r' sv) :
    vRow e m r id = vRow e' m' r' id := by
  unfold vRow
  rw [he, hm]
  cases mlookup e' id with
  | some reason => rfl
  | none =>
    cases mlookup m' id with
    | none => rfl
    | some sv => simp only [hr sv]

theorem vUpd_congr (e e' : PyDict Str String) (m m' : PyDict Str Nat)
    (r r' : PyDict Nat Nat) (id : Str)
    (he : mlookup e id = mlookup e' id) (hm : mlookup m id = mlookup m' id)
    (hr : ∀ sv : Nat, mlookup r sv = mlookup r' sv) :
    vUpd e m r id = vUpd e' m' r' id := by
  unfold vUpd
  rw [he, hm]
  cases mlookup e' id with
  | some reason => rfl
  | none =>
    cases mlookup m' id with
    | none => rfl
    | some sv => simp only [hr sv]

theorem buildValidator_congr (ids : List Str) (e e' : PyDict Str String)
    (m m' : PyDict Str Nat) (r r' : PyDict Nat Nat)
    (he : ∀ id : Str, mlookup e id = mlookup e' id)
    (hm : ∀ id : Str, mlookup m id = mlookup m' id)
    (hr : ∀ sv : Nat, mlookup r sv = mlookup r' sv) :
    buildValidator ids e m r = buildValidator ids e' m' r' := by
  rw [buildValidator_eq, buildValidator_eq]
  have hrow : ∀ id : Str, vRow e m r id = vRow e' m' r' id :=
    fun id => vRow_congr e e' m m' r r' id (he id) (hm id) hr
  have hupd : ∀ id : Str, vUpd e m r id = vUpd e' m' r' id :=
    fun id => vUpd_congr e e' m m' r r' id (he id) (hm id) hr
  congr 1
  · exact List.map_congr_left fun id _ => hrow id
  · exact List.countP_congr fun id _ => by rw [hrow id]
  · exact List.countP_congr fun id _ => by rw [hrow id]
  · exact List.countP_congr fun id _ => by rw [hrow id]
  · exact List.map_congr_left fun id _ => hupd id

theorem cRow_congr (e e' : PyDict Str String) (m m' : PyDict Str Nat)
    (d d' : PyDict Str (Option Coord3)) (vres : Coord3) (id : Str)
    (he : mlookup e id = mlookup e' id) (hm : mlookup m id = mlookup m' id)
    (hd : ∀ l2 : Nat, mlookup d (pyStrOfNat l2) = mlookup d' (pyStrOfNat l2)) :
    cRow e m d vres id = cRow e' m' d' vres id := by
  unfold cRow
  rw [he, hm]
  cases mlookup e' id with
  | some reason => rfl
  | none =>
    cases mlookup m' id with
    | none => rfl
    | some l2 => simp only [hd l2]

theorem buildCoords_congr (ids : List Str) (e e' : PyDict Str String)
    (m m' : PyDict Str Nat) (d d' : PyDict Str (Option Coord3)) (vres : Coord3)
    (he : ∀ id : Str, mlookup e id = mlookup e' id)
    (hm : ∀ id : Str, mlookup m id = mlookup m' id)
    (hd : ∀ l2 : Nat, mlookup d (pyStrOfNat l2) = mlookup d' (pyStrOfNat l2)) :
    buildCoords vres ids e m d = buildCoords vres ids e' m' d' := by
  rw [buildCoords_eq, buildCoords_eq]
  have hrow : ∀ id : Str, cRow e m d vres id = cRow e' m' d' vres id :=
    fun id => cRow_congr e e' m m' d d' vres id (he id) (hm id) hd
  congr 1
  · exact congrArg _ (List.map_congr_left fun id _ => hrow id)
  · exact List.countP_congr fun id _ => by rw [hrow id]
  · exact List.countP_congr fun id _ => by rw [hrow id]

theorem workerResult_fst (root_id : Str) (resp : Except String (List Nat)) (msg : String) :
    (workerResult root_id resp msg).1 = root_id := by
  unfold workerResult
  cases resp with
  | ok leaves => cases leaves <;> rfl
  | error e => rfl

theorem get_one_supervoxel_fst (client : Client) (x : Str) :
    (get_one_supervoxel client x).1 = x :=
  workerResult_fst x _ _

theorem get_one_l2_fst (client : Client) (x : Str) :
    (get_one_l2 client x).1 = x :=
  workerResult_fst x _ _

theorem stageA_lookup_perm (w : Str → Str × Option Nat × Option String)
    (hw : ∀ x : Str, (w x).1 = x) (all_ids order₁ order₂ : List Str)
    (h1 : order₁.Perm all_ids) (h2 : order₂.Perm all_ids) :
    (∀ id : Str, mlookup (collectA (order₁.map w)).1 id = mlookup (collectA (order₂.map w)).1 id) ∧
    (∀ id : Str, mlookup (collectA (order₁.map w)).2 id = mlookup (collectA (order₂.map w)).2 id) := by
  constructor
  · intro id
    rw [(collectA_lookup w hw order₁ id).1, (collectA_lookup w hw order₂ id).1]
    simp only [h1.mem_iff, h2.mem_iff]
  · intro id
    rw [(collectA_lookup w hw order₁ id).2, (collectA_lookup w hw order₂ id).2]
    simp only [h1.mem_iff, h2.mem_iff]

theorem stageA_mvals_perm (w : Str → Str × Option Nat × Option String)
    (hw : ∀ x : Str, (w x).1 = x) (all_ids order₁ order₂ : List Str)
    (h1 : order₁.Perm all_ids) (h2 : order₂.Perm all_ids) (sv : Nat) :
    sv ∈ mvals (collectA (order₁.map w)).1 ↔ sv ∈ mvals (collectA (order₂.map w)).1 := by
  rw [mem_mvals_iff _ (collectA_nodup (order₁.map w)).1 sv,
    mem_mvals_iff _ (collectA_nodup (order₂.map w)).1 sv]
  have hlook := (stageA_lookup_perm w hw all_ids order₁ order₂ h1 h2).1
  constructor
  · rintro ⟨k, hk⟩
    exact ⟨k, by rw [← hlook k]; exact hk⟩
  · rintro ⟨k, hk⟩
    exact ⟨k, by rw [hlook k]; exact hk⟩

/-- C8: for a fixed deterministic remote service (per-ID leaf responses,
pointwise batched root resolution, pointwise cached-attribute responses),
the final report of each pipeline is identical for every completion order
of the Stage-A tasks, hence for every worker count: collecting the
per-ID outcomes in any permutation of the input order yields the same
success/error map lookups and the same assembled report. -/
theorem claim_C8_order_invariance (client : Client) (rootf : Nat → Nat)
    (entryf : Nat → Option (Option Coord3)) (vres : Coord3)
    (all_ids order₁ order₂ : List Str)
    (hroots : ∀ c : List Nat, client.get_roots c = .ok (c.map rootf))
    (hl2 : ∀ c : List Nat,
      client.get_l2data c = .ok (c.filterMap fun x => (entryf x).map fun v => (pyStrOfNat x, v)))
    (h1 : order₁.Perm all_ids) (h2 : order₂.Perm all_ids) :
    validatorMain client all_ids order₁ = validatorMain client all_ids order₂ ∧
    coordsMain client vres all_ids order₁ = coordsMain client vres all_ids order₂ := by
  constructor
  · have hw := get_one_supervoxel_fst client
    have hlook := stageA_lookup_perm (get_one_supervoxel client) hw all_ids order₁ order₂ h1 h2
    have hvals := stageA_mvals_perm (get_one_supervoxel client) hw all_ids order₁ order₂ h1 h2
    rcases stageBRoots_pointwise client rootf hroots
      (mvals (collectA (order₁.map (get_one_supervoxel client))).1) with ⟨R₁, hR₁, hL₁⟩
    rcases stageBRoots_pointwise client rootf hroots
      (mvals (collectA (order₂.map (get_one_supervoxel client))).1) with ⟨R₂, hR₂, hL₂⟩
    have hr : ∀ sv : Nat, mlookup R₁ sv = mlookup R₂ sv := by
      intro sv
      rw [hL₁ sv, hL₂ sv]
      by_cases h : sv ∈ mvals (collectA (order₁.map (get_one_supervoxel client))).1
      · rw [if_pos h, if_pos ((hvals sv).mp h)]
      · rw [if_neg h, if_neg fun hc => h ((hvals sv).mpr hc)]
    unfold validatorMain stageAV
    simp only [hR₁, hR₂]
    congr 1
    exact buildValidator_congr all_ids _ _ _ _ _ _ hlook.2 hlook.1 hr
  · have hw := get_one_l2_fst client
    have hlook := stageA_lookup_perm (get_one_l2 client) hw all_ids order₁ order₂ h1 h2
    have hvals := stageA_mvals_perm (get_one_l2 client) hw all_ids order₁ order₂ h1 h2
    have hd : ∀ l2 : Nat,
        mlookup (stageBL2 client (mvals (collectA (order₁.map (get_one_l2 client))).1)) (pyStrOfNat l2) =
        mlookup (stageBL2 client (mvals (collectA (order₂.map (get_one_l2 client))).1)) (pyStrOfNat l2) := by
      intro l2
      rw [stageBL2_pointwise client entryf hl2 _ l2, stageBL2_pointwise client entryf hl2 _ l2]
      by_cases h : l2 ∈ mvals (collectA (order₁.map (get_one_l2 client))).1
      · by_cases hs : (entryf l2).isSome
        · rw [if_pos ⟨h, hs⟩, if_pos ⟨(hvals l2).mp h, hs⟩]
        · rw [if_neg fun hc => hs hc.2, if_neg fun hc => hs hc.2]
      · rw [if_neg fun hc => h hc.1, if_neg fun hc => h (((hvals l2).mpr hc.1))]
    unfold coordsMain stageAC
    exact buildCoords_congr all_ids _ _ _ _ _ _ vres hlook.2 hlook.1 hd

/-- C2 counterexample: with the duplicated input `["5", "5"]` and a
per-task outcome assignment in which the first task resolves and the
second faults (both triples are literal Stage-A worker outputs), the ID
`"5"` ends up a key of BOTH the success map and the error map, so the
claimed empty intersection fails. -/
theorem claim_C2_partition_counterexample :
    ['5'] ∈ mkeys (collectA
      [workerResult ['5'] (Except.ok [1]) "No supervoxels found",
       workerResult ['5'] (Except.error "boom") "No supervoxels found"]).1 ∧
    ['5'] ∈ mkeys (collectA
      [workerResult ['5'] (Except.ok [1]) "No supervoxels found",
       workerResult ['5'] (Except.error "boom") "No supervoxels found"]).2 ∧
    ([workerResult ['5'] (Except.ok [1]) "No supervoxels found",
      workerResult ['5'] (Except.error "boom") "No supervoxels found"].map
        fun r => r.1) = [['5'], ['5']] := by
  refine ⟨?_, ?_, ?_⟩ <;> decide

/-- C2 (amended): after Stage A the union of the two key sets always
equals the set of input InputIDs; the intersection is empty provided all
tasks for the same InputID agree on success/failure — in particular for
duplicate-free inputs or a deterministic per-ID remote service.  (With
duplicated IDs and divergent per-task outcomes the ID lands in both
maps.) -/
theorem claim_C2_partition_amended (rs : List (Str × Option Nat × Option String))
    (all_ids : List Str) (hids : (rs.map fun r => r.1).Perm all_ids) :
    (∀ id : Str,
      (id ∈ mkeys (collectA rs).1 ∨ id ∈ mkeys (collectA rs).2) ↔ id ∈ all_ids) ∧
    ((∀ r ∈ rs, ∀ r' ∈ rs, r.1 = r'.1 → ((r.2.1).isSome ↔ (r'.2.1).isSome)) →
      ∀ id : Str, ¬ (id ∈ mkeys (collectA rs).1 ∧ id ∈ mkeys (collectA rs).2)) := by
  constructor
  · intro id
    rw [mem_mkeys_collectA_succ, mem_mkeys_collectA_err, ← hids.mem_iff]
    constructor
    · rintro (⟨r, hr, hid, _⟩ | ⟨r, hr, hid, _⟩) <;> exact hid ▸ List.mem_map_of_mem _ hr
    · intro hmem
      rcases List.mem_map.mp hmem with ⟨r, hr, hid⟩
      cases hsv : r.2.1 with
      | some s => exact Or.inl ⟨r, hr, hid, by rw [hsv]; rfl⟩
      | none => exact Or.inr ⟨r, hr, hid, hsv⟩
  · rintro hagree id ⟨hin1, hin2⟩
    rcases (mem_mkeys_collectA_succ rs id).mp hin1 with ⟨r, hr, hid, hs⟩
    rcases (mem_mkeys_collectA_err rs id).mp hin2 with ⟨r', hr', hid', hn⟩
    have hiff := hagree r hr r' hr' (by rw [hid, hid'])
    rw [hn] at hiff
    simp [hs] at hiff

/-- Witness for the amended C2 on a concrete single-task run. -/
theorem claim_C2_partition_amended_witness :
    ((['7'] ∈ mkeys (collectA [(['7'], some 5, none)]).1 ∨
      ['7'] ∈ mkeys (collectA [(['7'], some 5, none)]).2) ↔ ['7'] ∈ [['7']]) ∧
    ¬ (['7'] ∈ mkeys (collectA [(['7'], some 5, none)]).1 ∧
       ['7'] ∈ mkeys (collectA [(['7'], some 5, none)]).2) :=
  ⟨(claim_C2_partition_amended [(['7'], some 5, none)] [['7']] (by decide)).1 ['7'],
   (claim_C2_partition_amended [(['7'], some 5, none)] [['7']] (by decide)).2
     (by decide) ['7']⟩

/-- C4: Stage-B fault asymmetry.  Validator: a fault on any root-lookup
chunk propagates and the run terminates with no report
(`validatorMain = error`).  Coordinate pipeline: the run always completes;
if every chunk containing an InputID's LeafID faults (and the service
only returns keys for leaves it was asked about), that leaf is absent
from the result dict and the ID's row is `N/A`. -/
theorem claim_C4_batch_fault_asymmetry (client : Client) (vres : Coord3)
    (all_ids order : List Str) :
    ((∃ c ∈ pyChunks 5000 (mvals (stageAV client order).1),
        ∃ e : String, client.get_roots c = .error e) →
      ∃ e' : String, validatorMain client all_ids order = .error e') ∧
    (∀ i : Nat, ∀ id : Str, ∀ l2 : Nat,
      (∀ c : List Nat, ∀ d : PyDict Str (Option Coord3),
        client.get_l2data c = .ok d → ∀ p ∈ d, ∃ x ∈ c, p.1 = pyStrOfNat x) →
      (∀ c ∈ pyChunks 100 (mvals (stageAC client order).1), l2 ∈ c →
        ∃ e : String, client.get_l2data c = .error e) →
      all_ids[i]? = some id →
      mlookup (stageAC client order).2 id = none →
      mlookup (stageAC client order).1 id = some l2 →
      (coordsMain client vres all_ids order).rows[i + 1]? = some (CRow.naRow id)) := by
  constructor
  · intro hex
    rcases stageBRoots_error client _ hex with ⟨e', he'⟩
    refine ⟨e', ?_⟩
    unfold validatorMain
    simp only [stageAV] at he'
    simp only [stageAV, he']
  · intro i id l2 hkeys hfault hi he hm
    have hnone := stageBL2_fault_none client (mvals (stageAC client order).1) l2 hkeys hfault
    unfold coordsMain
    rw [buildCoords_eq]
    simp only [List.getElem?_cons_succ, List.getElem?_map, hi, Option.map_some']
    congr 1
    unfold cRow
    simp only [he, hm, hnone]

theorem getLastD_irrel (l : List (List Char)) (h : l ≠ []) (a d : List Char) :
    l.getLastD a = l.getLastD d := by
  cases hl : l.getLast? with
  | none => exact absurd (List.getLast?_eq_none_iff.mp hl) h
  | some x =>
    rw [List.getLastD_eq_getLast?, List.getLastD_eq_getLast?, hl]
    rfl

theorem splitFuel_ne_nil (sep : Str) : ∀ fuel : Nat, ∀ l : Str, splitFuel sep fuel l ≠ [] := by
  intro fuel
  induction fuel with
  | zero => intro l; cases l <;> simp [splitFuel]
  | succ f ih =>
    intro l
    cases l with
    | nil => simp [splitFuel]
    | cons c rest =>
      simp only [splitFuel]
      by_cases hb : (!sep.isEmpty && sep.isPrefixOf (c :: rest)) = true
      · rw [if_pos hb]; simp
      · rw [if_neg hb]
        cases hS : splitFuel sep f rest <;> simp

theorem splitFuel_spec (sep : Str) (hsep : sep ≠ []) :
    ∀ fuel : Nat, ∀ l : Str, l.length ≤ fuel →
      (2 ≤ (splitFuel sep fuel l).length ↔ hasSub sep l = true) ∧
      (hasSub sep l = false → (splitFuel sep fuel l).getLastD [] = l) ∧
      (hasSub sep l = true →
        ∃ pre : Str, l = pre ++ sep ++ (splitFuel sep fuel l).getLastD [] ∧
          hasSub sep ((splitFuel sep fuel l).getLastD []) = false) := by
  have hie : sep.isEmpty = false := by
    cases sep with
    | nil => exact absurd rfl hsep
    | cons a s => rfl
  have hnil : ∀ fuel : Nat, (2 ≤ (splitFuel sep fuel ([] : Str)).length ↔ hasSub sep [] = true) ∧
      (hasSub sep ([] : Str) = false → (splitFuel sep fuel ([] : Str)).getLastD [] = []) ∧
      (hasSub sep ([] : Str) = true →
        ∃ pre : Str, ([] : Str) = pre ++ sep ++ (splitFuel sep fuel ([] : Str)).getLastD [] ∧
          hasSub sep ((splitFuel sep fuel ([] : Str)).getLastD []) = false) := by
    intro fuel
    have hsub : hasSub sep ([] : Str) = false := hie
    have hspl : splitFuel sep fuel ([] : Str) = [[]] := by cases fuel <;> rfl
    refine ⟨?_, fun _ => by rw [hspl]; rfl, fun h => by rw [hsub] at h; cases h⟩
    rw [hsub, hspl]
    simp
  intro fuel
  induction fuel with
  | zero =>
    intro l hl
    have : l = [] := List.length_eq_zero.mp (Nat.le_zero.mp hl)
    subst this
    exact hnil 0
  | succ f ih =>
    intro l hl
    cases l with
    | nil => exact hnil (f + 1)
    | cons c rest =>
      by_cases hb : (!sep.isEmpty && sep.isPrefixOf (c :: rest)) = true
      · have hpre : sep.isPrefixOf (c :: rest) = true := by
          cases hcon : sep.isPrefixOf (c :: rest) with
          | true => rfl
          | false => rw [hcon] at hb; simp at hb
        have hprefix : sep <+: (c :: rest) := List.isPrefixOf_iff_prefix.mp hpre
        have hdec : sep ++ (c :: rest).drop sep.length = c :: rest :=
          List.prefix_iff_eq_append.mp hprefix
        have hsep1 : 1 ≤ sep.length := by
          cases sep with
          | nil => exact absurd rfl hsep
          | cons a s => simp
        have hlen : ((c :: rest).drop sep.length).length ≤ f := by
          rw [List.length_drop]
          simp only [List.length_cons] at hl ⊢
          omega
        have hsplit : splitFuel sep (f + 1) (c :: rest) =
            [] :: splitFuel sep f ((c :: rest).drop sep.length) := by
          simp only [splitFuel]
          rw [if_pos hb]
        rcases ih ((c :: rest).drop sep.length) hlen with ⟨ih1, ih2, ih3⟩
        have hS := splitFuel_ne_nil sep f ((c :: rest).drop sep.length)
        have hsubl : hasSub sep (c :: rest) = true := by
          simp only [hasSub]
          rw [hpre]
          rfl
        have hlast : (splitFuel sep (f + 1) (c :: rest)).getLastD [] =
            (splitFuel sep f ((c :: rest).drop sep.length)).getLastD [] := by
          rw [hsplit, List.getLastD_cons]
        refine ⟨?_, ?_, ?_⟩
        · rw [hsubl, hsplit]
          have hpos := List.length_pos.mpr hS
          simp only [List.length_cons, iff_true]
          omega
        · intro hfalse
          rw [hsubl] at hfalse
          cases hfalse
        · intro _
          rw [hlast]
          by_cases hsub' : hasSub sep ((c :: rest).drop sep.length) = true
          · rcases ih3 hsub' with ⟨pre', hdecomp, hnos⟩
            refine ⟨sep ++ pre', ?_, hnos⟩
            conv_lhs => rw [← hdec, hdecomp]
            simp [List.append_assoc]
          · have hfalse : hasSub sep ((c :: rest).drop sep.length) = false :=
              Bool.not_eq_true _ ▸ hsub'
            have hlasteq := ih2 hfalse
            refine ⟨[], ?_, ?_⟩
            · rw [hlasteq]
              conv_lhs => rw [← hdec]
              rw [List.nil_append]
            · rw [hlasteq]
              exact hfalse
      · have hnpre : sep.isPrefixOf (c :: rest) = false := by
          by_contra hcon
          rw [Bool.not_eq_false] at hcon
          exact hb (by rw [hie, hcon]; rfl)
        have hsubl : hasSub sep (c :: rest) = hasSub sep rest := by
          simp only [hasSub]
          rw [hnpre]
          exact Bool.false_or _
        have hrestlen : rest.length ≤ f := by
          simp only [List.length_cons] at hl
          omega
        rcases ih rest hrestlen with ⟨ih1, ih2, ih3⟩
        have hS := splitFuel_ne_nil sep f rest
        rcases hSs : splitFuel sep f rest with _ | ⟨p, ps⟩
        · exact absurd hSs hS
        have hsplit : splitFuel sep (f + 1) (c :: rest) = (c :: p) :: ps := by
          simp only [splitFuel]
          rw [if_neg hb, hSs]
        refine ⟨?_, ?_, ?_⟩
        · rw [hsubl, hsplit, ← ih1, hSs]
          simp
        · intro hfalse
          rw [hsubl] at hfalse
          have hl1 : ¬ 2 ≤ (splitFuel sep f rest).length := by
            intro hge
            rw [ih1] at hge
            rw [hge] at hfalse
            cases hfalse
          have hps : ps = [] := by
            rw [hSs] at hl1
            simp only [List.length_cons] at hl1
            cases ps with
            | nil => rfl
            | cons q qs => exact absurd (by simp) hl1
          subst hps
          have hlasteq := ih2 hfalse
          rw [hSs] at hlasteq
          have hp : p = rest := hlasteq
          rw [hsplit, hp]
          rfl
        · intro htrue
          rw [hsubl] at htrue
          have hge : 2 ≤ (splitFuel sep f rest).length := ih1.mpr htrue
          have hps : ps ≠ [] := by
            intro hcon
            subst hcon
            rw [hSs] at hge
            simp at hge
          rcases ih3 htrue with ⟨pre', hdecomp, hnos⟩
          rw [hSs] at hdecomp hnos
          have hlast : (splitFuel sep (f + 1) (c :: rest)).getLastD [] =
              ((p :: ps) : List Str).getLastD [] := by
            rw [hsplit, List.getLastD_cons, List.getLastD_cons]
            exact getLastD_irrel ps hps _ _
          rw [hlast]
          refine ⟨c :: pre', ?_, hnos⟩
          rw [hdecomp]
          simp [List.cons_append]

/-- Characterization of `line.split(sep)[-1]` for a nonempty separator:
if `sep` does not occur in `l`, the last field is `l` itself; if it does,
the last field is exactly the (separator-free) text after the last
occurrence of `sep`. -/
theorem lastField_spec (sep l : Str) (hsep : sep ≠ []) :
    (hasSub sep l = false → lastField sep l = l) ∧
    (hasSub sep l = true →
      ∃ pre : Str, l = pre ++ sep ++ lastField sep l ∧
        hasSub sep (lastField sep l) = false) := by
  rcases splitFuel_spec sep hsep l.length l (Nat.le_refl _) with ⟨_, h2, h3⟩
  exact ⟨h2, h3⟩

theorem pyIsDigit_absorb (s : Str) : (!s.isEmpty && pyIsDigit s) = pyIsDigit s := by
  cases s with
  | nil => rfl
  | cons a t => rfl

theorem isEmpty_false_of_ne_nil {s : Str} (h : s ≠ []) : s.isEmpty = false := by
  cases s with
  | nil => exact absurd rfl h
  | cons a t => rfl

theorem isDig_not_space (c : Char) (hd : isDig c = true) : pyIsSpace c = false := by
  by_contra hcon
  rw [Bool.not_eq_false] at hcon
  unfold pyIsSpace at hcon
  unfold isDig at hd
  rw [Bool.and_eq_true] at hd
  have h48 : 48 ≤ c.toNat := of_decide_eq_true hd.1
  simp only [Bool.or_eq_true, decide_eq_true_eq] at hcon
  rcases hcon with ((((hc | hc) | hc) | hc) | hc) | hc <;>
    (subst hc; exact absurd h48 (by decide))

theorem dropWhile_eq_self_of_not (p : Char → Bool) (l : Str)
    (h : ∀ c ∈ l, p c = false) : l.dropWhile p = l := by
  cases l with
  | nil => rfl
  | cons a t =>
    rw [List.dropWhile_cons, h a (List.mem_cons_self a t)]
    simp

theorem pyStrip_of_digits (s : Str) (h : s.all isDig = true) : pyStrip s = s := by
  have hns : ∀ c ∈ s, pyIsSpace c = false := fun c hc =>
    isDig_not_space c ((List.all_eq_true.mp h) c hc)
  unfold pyStrip
  rw [dropWhile_eq_self_of_not _ _ hns,
    dropWhile_eq_self_of_not _ _ (fun c hc => hns c (List.mem_reverse.mp hc)),
    List.reverse_reverse]

theorem hasSub_singleton (a : Char) (l : Str) : hasSub [a] l = true ↔ a ∈ l := by
  induction l with
  | nil => simp [hasSub]
  | cons c rest ih =>
    simp only [hasSub, Bool.or_eq_true, ih, List.mem_cons]
    constructor
    · rintro (h | h)
      · left
        rcases List.isPrefixOf_iff_prefix.mp h with ⟨t, ht⟩
        have ht' : a :: t = c :: rest := by simpa using ht
        exact (List.cons_eq_cons.mp ht').1
      · right
        exact h
    · rintro (h | h)
      · left
        subst h
        simp [List.isPrefixOf]
      · right
        exact h

/-- C3 counterexample: the validator's parser does not skip `#` comment
lines (a comment line containing the Unicode arrow still yields an ID)
and has no ASCII `->` grammar (`12->34` yields nothing in the validator
but `34` in the coordinate pipeline, whose parser matches the claim). -/
theorem claim_C3_parser_counterexample :
    parseIdFileV ["#→456".data] = ["456".data] ∧
    parseIdFileV ["12->34".data] = [] ∧
    parseIdFileC ["#→456".data] = [] ∧
    parseIdFileC ["12->34".data] = ["34".data] := by
  refine ⟨?_, ?_, ?_, ?_⟩ <;> decide

/-- C3 (amended): both parsers preserve line order and duplicates
(append homomorphism).  Per line, on the stripped text: blank lines yield
nothing in both parsers; the coordinate parser skips `#` lines; a line
containing the Unicode arrow yields (in both parsers) the text after its
last occurrence, stripped, if all-digits, else nothing — in the validator
this applies even to `#` lines; a line without the arrow but containing
ASCII `->` yields the analogous field in the coordinate parser but always
yields NOTHING in the validator (which has no `->` grammar); otherwise an
all-digits line yields itself and any other line yields nothing. -/
theorem claim_C3_parser_grammar_amended :
    (∀ xs ys : List Str, parseIdFileC (xs ++ ys) = parseIdFileC xs ++ parseIdFileC ys) ∧
    (∀ xs ys : List Str, parseIdFileV (xs ++ ys) = parseIdFileV xs ++ parseIdFileV ys) ∧
    (∀ raw : Str,
      (pyStrip raw = [] → parseLineC raw = [] ∧ parseLineV raw = []) ∧
      (∀ c : Char, ∀ rest : Str, pyStrip raw = c :: rest → c = '#' → parseLineC raw = []) ∧
      (pyStrip raw ≠ [] → hasSub [arrowChar] (pyStrip raw) = true →
        ∃ pre suf : Str, pyStrip raw = pre ++ [arrowChar] ++ suf ∧
          hasSub [arrowChar] suf = false ∧
          parseLineV raw = (if pyIsDigit (pyStrip suf) then [pyStrip suf] else []) ∧
          (['#'].isPrefixOf (pyStrip raw) = false →
            parseLineC raw = (if pyIsDigit (pyStrip suf) then [pyStrip suf] else []))) ∧
      (pyStrip raw ≠ [] → hasSub [arrowChar] (pyStrip raw) = false →
        hasSub ['-', '>'] (pyStrip raw) = true →
        parseLineV raw = [] ∧
        ∃ pre suf : Str, pyStrip raw = pre ++ ['-', '>'] ++ suf ∧
          hasSub ['-', '>'] suf = false ∧
          (['#'].isPrefixOf (pyStrip raw) = false →
            parseLineC raw = (if pyIsDigit (pyStrip suf) then [pyStrip suf] else []))) ∧
      (pyStrip raw ≠ [] → hasSub [arrowChar] (pyStrip raw) = false →
        hasSub ['-', '>'] (pyStrip raw) = false →
        parseLineV raw = (if pyIsDigit (pyStrip raw) then [pyStrip raw] else []) ∧
        (['#'].isPrefixOf (pyStrip raw) = false →
          parseLineC raw = (if pyIsDigit (pyStrip raw) then [pyStrip raw] else [])))) := by
  refine ⟨?_, ?_, ?_⟩
  · intro xs ys
    unfold parseIdFileC
    exact List.flatMap_append xs ys parseLineC
  · intro xs ys
    unfold parseIdFileV
    exact List.flatMap_append xs ys parseLineV
  · intro raw
    refine ⟨?_, ?_, ?_, ?_, ?_⟩
    · intro hblank
      constructor
      · unfold parseLineC
        rw [hblank]
        rfl
      · unfold parseLineV
        rw [hblank]
        rfl
    · intro c rest hcons hc
      unfold parseLineC
      rw [hcons, hc]
      have hie : (('#' : Char) :: rest).isEmpty = false := rfl
      have hpre : ['#'].isPrefixOf ('#' :: rest) = true := by simp [List.isPrefixOf]
      simp [hie, hpre]
    · intro hne harrow
      have hie := isEmpty_false_of_ne_nil hne
      rcases (lastField_spec [arrowChar] (pyStrip raw) (by decide)).2 harrow with
        ⟨pre, hdec, hnos⟩
      refine ⟨pre, lastField [arrowChar] (pyStrip raw), hdec, hnos, ?_, ?_⟩
      · unfold parseLineV
        simp only [hie, Bool.false_eq_true, if_false, harrow, if_true,
          pyIsDigit_absorb]
      · intro hnoth
        unfold parseLineC
        simp only [hie, Bool.false_eq_true, if_false, hnoth, harrow, if_true,
          pyIsDigit_absorb]
    · intro hne harrow hdash
      have hie := isEmpty_false_of_ne_nil hne
      rcases (lastField_spec ['-', '>'] (pyStrip raw) (by decide)).2 hdash with
        ⟨pre, hdec, hnos⟩
      have hdashmem : '-' ∈ pyStrip raw := by
        rw [hdec]
        simp
      have hnd : pyIsDigit (pyStrip raw) = false := by
        unfold pyIsDigit
        have hall : (pyStrip raw).all isDig = false :=
          List.all_eq_false.mpr ⟨'-', hdashmem, by decide⟩
        rw [hall, Bool.and_false]
      refine ⟨?_, pre, lastField ['-', '>'] (pyStrip raw), hdec, hnos, ?_⟩
      · unfold parseLineV
        simp only [hie, Bool.false_eq_true, if_false, harrow, hnd]
      · intro hnoth
        unfold parseLineC
        simp only [hie, Bool.false_eq_true, if_false, hnoth, harrow, hdash,
          if_true, pyIsDigit_absorb]
    · intro hne harrow hdash
      have hie := isEmpty_false_of_ne_nil hne
      constructor
      · unfold parseLineV
        simp only [hie, Bool.false_eq_true, if_false, harrow]
      · intro hnoth
        unfold parseLineC
        simp only [hie, Bool.false_eq_true, if_false, hnoth, harrow, hdash]

/-- Witness for the amended C3: a `#` comment line is skipped by the
coordinate parser. -/
theorem claim_C3_parser_grammar_amended_witness :
    parseLineC ("#5".data) = [] :=
  (claim_C3_parser_grammar_amended.2.2 ("#5".data)).2.1 '#' ("5".data) (by decide) rfl

/-- C10: a digit string with leading zeros (`s ≠ str(int(s))`, e.g.
`"007"`) is accepted by the validator's parser as an InputID; the remote
lookup is issued on its integer value `int(s)`; and in Stage C the string
comparison `str(root) != s` is true for EVERY root value (in particular
for `root = int(s)`, i.e. when the current root equals the input
numerically), so the entry is always `Changed(str(root))` and never
`Unchanged`. -/
theorem claim_C10_leading_zero_ids (s : Str) (client : Client) (ids : List Str)
    (e : PyDict Str String) (m : PyDict Str Nat) (r : PyDict Nat Nat)
    (i : Nat) (sv : Nat)
    (hdig : pyIsDigit s = true) (hlead : s ≠ pyStrOfNat (pyIntOfStr s)) :
    parseLineV s = [s] ∧
    get_one_supervoxel client s =
      workerResult s (client.get_leaves (pyIntOfStr s)) "No supervoxels found" ∧
    (∀ root : Nat, ids[i]? = some s → mlookup e s = none → mlookup m s = some sv →
      mlookup r sv = some root →
      (buildValidator ids e m r).lines[i]? =
        some (VLine.changedRow s (pyStrOfNat root))) := by
  have hdig' := hdig
  unfold pyIsDigit at hdig'
  rw [Bool.and_eq_true] at hdig'
  have hall : s.all isDig = true := hdig'.2
  have hie0 : s.isEmpty = false := by
    cases hse : s.isEmpty
    · rfl
    · rw [hse] at hdig'
      rcases hdig' with ⟨h1, _⟩
      cases h1
  have hsne : s ≠ [] := by
    intro hcon
    subst hcon
    cases hie0
  have hstrip : pyStrip s = s := pyStrip_of_digits s hall
  refine ⟨?_, rfl, ?_⟩
  · have harrow : hasSub [arrowChar] (pyStrip s) = false := by
      rw [hstrip]
      cases hsub : hasSub [arrowChar] s
      · rfl
      · exfalso
        have hmem := (hasSub_singleton arrowChar s).mp hsub
        have := (List.all_eq_true.mp hall) arrowChar hmem
        cases this
    unfold parseLineV
    rw [hstrip]
    simp only [hie0, Bool.false_eq_true, if_false, hstrip ▸ harrow, hdig, if_true]
  · intro root hi he hm hr
    have hroot_ne : pyStrOfNat root ≠ s := by
      intro hcon
      apply hlead
      have hint : pyIntOfStr s = root := by
        rw [← hcon, pyIntOfStr_pyStrOfNat]
      rw [hint, hcon]
    rw [buildValidator_eq]
    simp only [List.getElem?_map, hi, Option.map_some']
    congr 1
    unfold vRow
    simp only [he, hm, hr]
    simp [hroot_ne]

/-- A deterministic, pointwise remote-service stub used for witnesses. -/
def pointwiseClient : Client where
  get_leaves := fun n => .ok [n + 10]
  get_leaves2 := fun n => .ok [n + 20]
  get_roots := fun c => .ok (c.map fun x => x + 1)
  get_l2data := fun c =>
    .ok (c.filterMap fun x =>
      ((fun _ : Nat => some (some ((4 : Int), (8 : Int), (40 : Int)))) x).map
        fun v => (pyStrOfNat x, v))

/-- A remote-service stub whose Stage-B batch calls always fault, and
whose Stage-A leaf call faults for ID 5 and returns no leaves for ID 6. -/
def faultyClient : Client where
  get_leaves := fun n => if n = 5 then .error "boom" else if n = 6 then .ok [] else .ok [n]
  get_leaves2 := fun n => .ok [n]
  get_roots := fun _ => .error "rootfail"
  get_l2data := fun _ => .error "l2fail"

/-- Witness for C10 at the concrete leading-zero input `"007"`. -/
theorem claim_C10_leading_zero_ids_witness :
    parseLineV ("007".data) = [("007".data)] ∧
    (buildValidator [("007".data)] [] [(("007".data), 3)] [(3, 7)]).lines[0]? =
      some (VLine.changedRow ("007".data) (pyStrOfNat 7)) := by
  have h := claim_C10_leading_zero_ids ("007".data) pointwiseClient [("007".data)]
    [] [(("007".data), 3)] [(3, 7)] 0 3 (by decide) (by decide)
  exact ⟨h.1, h.2.2 7 (by decide) (by decide) (by decide) (by decide)⟩

/-- Witness for C5 on concrete stubs: non-empty result, empty result and
raised fault, for both pipelines' workers. -/
theorem claim_C5_worker_outcomes_witness :
    get_one_supervoxel pointwiseClient ['3'] = (['3'], some 13, none) ∧
    get_one_supervoxel faultyClient ['6'] =
      (['6'], none, some "No supervoxels found") ∧
    get_one_supervoxel faultyClient ['5'] = (['5'], none, some "boom") ∧
    get_one_l2 pointwiseClient ['3'] = (['3'], some 23, none) :=
  ⟨(claim_C5_worker_outcomes pointwiseClient ['3']).1 13 [] rfl,
   (claim_C5_worker_outcomes faultyClient ['6']).2.1 rfl,
   (claim_C5_worker_outcomes faultyClient ['5']).2.2.1 "boom" rfl,
   (claim_C5_worker_outcomes pointwiseClient ['3']).2.2.2.1 23 [] rfl⟩

/-- Witness for C6 on concrete maps. -/
theorem claim_C6_validator_classification_witness :
    (buildValidator [['7']] [] [(['7'], 3)] [(3, 8)]).lines[0]? =
      some (if pyStrOfNat 8 = ['7'] then VLine.okRow ['7']
            else VLine.changedRow ['7'] (pyStrOfNat 8)) :=
  claim_C6_validator_classification [['7']] [] [(['7'], 3)] [(3, 8)] 0 ['7'] 3 8
    (by decide) (by decide) (by decide) (by decide)

/-- Witness for C8: two different completion orders of a two-ID run
produce identical reports under the pointwise stub. -/
theorem claim_C8_order_invariance_witness :
    validatorMain pointwiseClient [['1'], ['2']] [['1'], ['2']] =
      validatorMain pointwiseClient [['1'], ['2']] [['2'], ['1']] ∧
    coordsMain pointwiseClient (4, 4, 40) [['1'], ['2']] [['1'], ['2']] =
      coordsMain pointwiseClient (4, 4, 40) [['1'], ['2']] [['2'], ['1']] :=
  claim_C8_order_invariance pointwiseClient (fun x => x + 1)
    (fun _ => some (some ((4 : Int), (8 : Int), (40 : Int)))) (4, 4, 40)
    [['1'], ['2']] [['1'], ['2']] [['2'], ['1']]
    (fun c => rfl) (fun c => rfl) (by decide) (by decide)

/-- Witness for C4: with a stub whose batch calls fault, the validator
run aborts with an error while the coordinate run completes and reports
`N/A` for the affected ID. -/
theorem claim_C4_batch_fault_asymmetry_witness :
    (∃ e' : String, validatorMain faultyClient [['1']] [['1']] = .error e') ∧
    (coordsMain faultyClient (4, 4, 40) [['1']] [['1']]).rows[1]? =
      some (CRow.naRow ['1']) :=
  ⟨(claim_C4_batch_fault_asymmetry faultyClient (4, 4, 40) [['1']] [['1']]).1
     ⟨[1], by decide, "rootfail", rfl⟩,
   (claim_C4_batch_fault_asymmetry faultyClient (4, 4, 40) [['1']] [['1']]).2
     0 ['1'] 1 (fun c d h => by cases h) (fun c hc hl => ⟨"l2fail", rfl⟩)
     (by decide) (by decide) (by decide)⟩
